import Mathlib

/-!
# RLCI fractal NLP engine: a shallow embedding

The definitions below transcribe `fractalNLPengine.cpp` and `fractal_shell.cpp`.

Conventions of the embedding.

* `std::string` is `String`; `std::string::find` is `find` below, a left-to-right
  search returning the first position (`none` stands for `npos`).
* A `float` or `double` value is the rational number it stands for, and a float
  literal is named by its decimal.  Comparisons, `std::max` and the widening of a
  `float` to a `double` are exact.  Where the source rounds and a result depends on
  it, the rounded value comes from outside: the product `size * 100` of
  `buildHistogram` is the argument `fmul`, the sum of line 83 of `fractal_shell.cpp`
  is `Draws.float_add`, the value of line 72 is `Draws.delta_O`.
* `fitPowerLaw` is in real arithmetic, with the overflow of a quotient
  `size / min_size` to `+inf` modelled; `selection_weight` is the exact expression
  of line 58.
* `generate_power_law` calls `std::pow` in binary32 and has no embedding here: the
  values its calls return inside `process_input` are arguments there.
* `int` is `Int`, wrapped to 32 bits where the source increments it or narrows
  a size to it.
* Everything drawn from the environment (random numbers, clock, uuid) is an
  explicit argument; the function-level `static previous_sigil` of `add_turn` is
  state passed in and out.
-/

namespace RLCI

/-! ## Strings -/

/-- Search `pat` in `hay`, `pos` being the position of the head of `hay`:
the loop behind `std::string::find`. -/
def findFrom (pat : List Char) : List Char → Nat → Option Nat
  | [], pos => if pat.isEmpty then some pos else none
  | c :: rest, pos =>
      if pat.isPrefixOf (c :: rest) then some pos else findFrom pat rest (pos + 1)

/-- `s.find(pat)`; `none` is `std::string::npos`. -/
def find (s pat : String) : Option Nat :=
  findFrom pat.data s.data 0

/-- `s.find(pat) != std::string::npos`. -/
def found (s pat : String) : Bool :=
  (find s pat).isSome

/-- `std::transform(.., ::tolower)`: maps `A`..`Z` to `a`..`z`, every other
character is kept. -/
def to_lower (s : String) : String :=
  ⟨s.data.map Char.toLower⟩

/-! ## Records of `fractalNLPengine.hpp` -/

/-- `struct Observer`. -/
structure Observer where
  name : String
  symbol : String
  belief_field : ℚ
  modulation_strength : ℚ
  perceptual_bandwidth : ℚ
  deriving DecidableEq

/-- `struct DialogueTurn`. -/
structure DialogueTurn where
  input : String
  response : String
  message : String
  mode : String
  sigil : String
  delta_O : ℚ
  entropy : ℚ
  tags : List String
  timestamp : String
  turn_id : String
  deriving DecidableEq

/-! ## `FractalMemoryCore::generate_dialogue_response` -/

/-- `generate_dialogue_response`; `choice` is the value of `dis(gen)`, drawn
from `0..2`.  The `input` argument is unused, as in the source. -/
def generate_dialogue_response (_input : String) (observer : Observer) (choice : Nat) : String :=
  let response := "Generated: "
  if observer.name = "Grounded Realist" then
    if choice = 0 then response ++ "observer signal signal"
    else if choice = 1 then response ++ "calibration in progress"
    else response ++ "semantic anchor detected"
  else if observer.name = "Fluid Mystic" then
    if choice = 0 then response ++ "entropy signal signal"
    else if choice = 1 then response ++ "flow state activated"
    else response ++ "resonance pulse emitted"
  else if observer.name = "Recursive Oracle" then
    if choice = 0 then response ++ "coherence observer coherence"
    else if choice = 1 then response ++ "recursive loop initiated"
    else response ++ "quantum eye scanning"
  else response

/-! ## `SymbolicJournal::get_message` and `generate_tags` -/

/-- `SymbolicJournal::get_message`. -/
def get_message (delta_O : ℚ) (_entropy : ℚ) : String :=
  if delta_O > 3 / 2 then "⚠️ Divergence detected. Semantic clarity unraveling."
  else "🔄 Meaning fluctuation within acceptable thresholds."

/-- `SymbolicJournal::generate_tags`: seven guarded `push_back`s in sequence. -/
def generate_tags (turn : DialogueTurn) (input_lower : String) : List String :=
  let tags : List String := []
  let tags := if turn.entropy > 1 then tags ++ ["#entropy-spike"] else tags
  let tags := if turn.delta_O > 3 / 2 then tags ++ ["#high-decoherence"] else tags
  let tags :=
    if found input_lower "happy" || found input_lower "birth day" then
      tags ++ ["#celebration"]
    else tags
  let tags :=
    if found input_lower "uncertainty" || found input_lower "doubt" then
      tags ++ ["#introspection"]
    else tags
  let tags := if found input_lower "quantum eye" then tags ++ ["#symbol-request"] else tags
  let tags :=
    if turn.delta_O > 3 / 2 ∧ found turn.response "paradox" then tags ++ ["#paradox"]
    else tags
  let tags :=
    if found input_lower "recursive oracle" || found input_lower "fluid mystic" ||
        found input_lower "grounded realist" || found input_lower "recusive" then
      tags ++ ["#observer-interaction"]
    else tags
  tags

/-! ## `observer_affinity` -/

/-- `observer_affinity`. -/
def observer_affinity (current_observer previous_observer : String) : ℚ :=
  if current_observer = previous_observer then 1
  else if (current_observer = "Grounded Realist" ∧ previous_observer = "Fluid Mystic") ∨
      (current_observer = "Fluid Mystic" ∧ previous_observer = "Grounded Realist") then 7 / 10
  else if (current_observer = "Recursive Oracle" ∧ previous_observer = "Fluid Mystic") ∨
      (current_observer = "Fluid Mystic" ∧ previous_observer = "Recursive Oracle") then 85 / 100
  else if (current_observer = "Grounded Realist" ∧ previous_observer = "Recursive Oracle") ∨
      (current_observer = "Recursive Oracle" ∧ previous_observer = "Grounded Realist") then 6 / 10
  else 5 / 10

/-! ## `PowerLawAnalyzer` -/

/-- `class PowerLawAnalyzer`: the raw samples `event_sizes_`.  The members
`histogram_` and `alpha_` are overwritten from `event_sizes_` by `buildHistogram`
and `fitPowerLaw` before each use and carry no state of their own. -/
structure PowerLawAnalyzer where
  event_sizes : List ℚ
  deriving DecidableEq

/-- `PowerLawAnalyzer::PowerLawAnalyzer()`. -/
def PowerLawAnalyzer.new : PowerLawAnalyzer := ⟨[]⟩

/-- `PowerLawAnalyzer::logEvent`: `event_sizes_.push_back(size)`. -/
def PowerLawAnalyzer.logEvent (a : PowerLawAnalyzer) (size : ℚ) : PowerLawAnalyzer :=
  { a with event_sizes := a.event_sizes ++ [size] }

/-! ## `KnowledgeGraph` -/

/-- The value of a C++ `int` after an arithmetic step, wrapped to 32 bits. -/
def wrapInt32 (x : Int) : Int :=
  (x + 2147483648) % 4294967296 - 2147483648

/-- An edge of the underlying graph: tail, head and the number `n` of its
label `e<n>`. -/
structure Edge where
  tail : String
  head : String
  label : Int
  deriving DecidableEq

/-- `class KnowledgeGraph`: the keys of `nodes_` in insertion order (they are
the nodes of `graph_`), the edges of `graph_` in creation order, `edge_count_`. -/
structure KnowledgeGraph where
  nodes : List String
  edges : List Edge
  edge_count : Int
  deriving DecidableEq

/-- `KnowledgeGraph::KnowledgeGraph()`. -/
def KnowledgeGraph.new : KnowledgeGraph := ⟨[], [], 0⟩

/-- `KnowledgeGraph::addSymbol`. -/
def KnowledgeGraph.addSymbol (g : KnowledgeGraph) (symbol : String) : KnowledgeGraph :=
  if symbol ∈ g.nodes then g else { g with nodes := g.nodes ++ [symbol] }

/-- `KnowledgeGraph::addRelationship`.  `agedge(.., nullptr, 1)` on the
non-strict directed graph opened by the constructor creates a fresh edge on
every call. -/
def KnowledgeGraph.addRelationship (g : KnowledgeGraph) (src dst : String) : KnowledgeGraph :=
  let g := g.addSymbol src
  let g := g.addSymbol dst
  { g with
    edges := g.edges ++ [⟨src, dst, g.edge_count⟩]
    edge_count := wrapInt32 (g.edge_count + 1) }

/-- The graph states a program can build: the constructor followed by calls of
the two mutators. -/
inductive KnowledgeGraph.Reachable : KnowledgeGraph → Prop
  | new : Reachable KnowledgeGraph.new
  | addSymbol {g : KnowledgeGraph} (s : String) : Reachable g → Reachable (g.addSymbol s)
  | addRelationship {g : KnowledgeGraph} (a b : String) :
      Reachable g → Reachable (g.addRelationship a b)

/-! ## `PowerLawAnalyzer`: histogram and fit -/

/-- `static_cast<int>(x)` of a `double`: the fraction is discarded, rounding toward
zero; `none` where the integer part does not fit an `int`, the conversion being
undefined there. -/
def static_cast_int (x : ℚ) : Option Int :=
  let truncated := Int.tdiv x.num x.den
  if -2147483648 ≤ truncated ∧ truncated ≤ 2147483647 then some truncated else none

/-- `histogram_[bin]++` on the `std::map<int, int>`, kept in ascending key order;
a key that is absent is created with the value 0 first. -/
def histogram_increment : List (Int × Int) → Int → List (Int × Int)
  | [], bin => [(bin, wrapInt32 (0 + 1))]
  | (k, c) :: rest, bin =>
      if bin < k then (bin, wrapInt32 (0 + 1)) :: (k, c) :: rest
      else if bin = k then (k, wrapInt32 (c + 1)) :: rest
      else (k, c) :: histogram_increment rest bin

/-- `PowerLawAnalyzer::buildHistogram`: the value of `histogram_` after the call,
`none` once a conversion to `int` was undefined.  `fmul x y` stands for the binary64
product `x * y` as the machine computes it, rounded; a product that overflows to an
infinity is any value outside the range of `int`. -/
def PowerLawAnalyzer.buildHistogram (fmul : ℚ → ℚ → ℚ) (a : PowerLawAnalyzer) :
    Option (List (Int × Int)) :=
  a.event_sizes.foldl
    (fun histogram size =>
      match histogram, static_cast_int (fmul size 100) with
      | some h, some bin => some (histogram_increment h bin)
      | _, _ => none)
    (some [])

/-- The count stored under key `k`, 0 when the key is absent. -/
def histogram_count (histogram : List (Int × Int)) (k : Int) : Int :=
  (histogram.lookup k).getD 0

/-- The value of `alpha_`: a real number, or the `+inf` a division of a positive
number by zero yields. -/
inductive Exponent where
  | finite (alpha : ℝ)
  | infinity

/-- `std::min_element` started with `smallest` as the first element: a later
element replaces it when strictly smaller. -/
def min_element (smallest : ℚ) : List ℚ → ℚ
  | [] => smallest
  | x :: rest => min_element (if x < smallest then x else smallest) rest

/-- The least quotient a binary64 division rounds to `+inf`: `2^1024 - 2^970`,
half a unit in the last place above the largest finite `double`. -/
def double_overflow : ℚ :=
  2 ^ 1024 - 2 ^ 970

/-- The value of the variable `sum_log`: a real number, or `+inf`. -/
inductive LogSum where
  | finite (sum : ℝ)
  | infinity

/-- One round of the loop of lines 34-36, `if (size > 0) sum_log += std::log(size /
min_size)`, for a positive `min_size`: a quotient that overflows is `+inf`, its
logarithm is `+inf`, and so is every sum with it. -/
noncomputable def add_log (min_size : ℚ) (sum_log : LogSum) (size : ℚ) : LogSum :=
  if size > 0 then
    match sum_log with
    | LogSum.infinity => LogSum.infinity
    | LogSum.finite sum =>
        if double_overflow ≤ size / min_size then LogSum.infinity
        else LogSum.finite (sum + Real.log ((size / min_size : ℚ) : ℝ))
  else sum_log

/-- The loop of lines 34-36 of `fitPowerLaw`: the value of `sum_log` after it. -/
noncomputable def sum_log (min_size : ℚ) (sizes : List ℚ) : LogSum :=
  sizes.foldl (add_log min_size) (LogSum.finite 0)

/-- `PowerLawAnalyzer::fitPowerLaw`: the value of `alpha_` after the call.  With
`n ≥ 2` the sample vector is not empty, so the first branch of the inner `match` is
not reached.  With `sum_log` at `+inf` the quotient `n / sum_log` is 0 and `alpha_`
is 1.0. -/
noncomputable def PowerLawAnalyzer.fitPowerLaw (a : PowerLawAnalyzer) : Exponent :=
  let n : Int := wrapInt32 a.event_sizes.length
  if n < 2 then Exponent.finite 0
  else
    match a.event_sizes with
    | [] => Exponent.finite 0
    | first :: rest =>
        let min_size := min_element first rest
        let min_size := if min_size ≤ 0 then 1 / 100 else min_size
        match sum_log min_size a.event_sizes with
        | LogSum.infinity => Exponent.finite 1
        | LogSum.finite sum_log =>
            if sum_log = 0 then Exponent.infinity else Exponent.finite (1 + n / sum_log)

/-! ## `SymbolicJournal` -/

/-- One element of the `"journal"` array written by `add_turn`. -/
structure JournalEntry where
  context_affinity : ℚ
  context_interference : String
  context_previous_observer : String
  input : String
  message : String
  metrics_delta_O : ℚ
  metrics_entropy : ℚ
  mode : String
  observer_belief_field : ℚ
  observer_modulation_strength : ℚ
  observer_name : String
  observer_perceptual_bandwidth : ℚ
  observer_symbol : String
  response : String
  sigil : String
  tags : List String
  timestamp : String
  turn_id : String
  deriving DecidableEq

/-- `class SymbolicJournal` together with the file `filename_` names: `file` is
`none` while the file cannot be opened, else the entries of its `"journal"`
array. -/
structure SymbolicJournal where
  file : Option (List JournalEntry)
  power_law_analyzer : PowerLawAnalyzer
  knowledge_graph : KnowledgeGraph
  deriving DecidableEq

/-- `SymbolicJournal::SymbolicJournal(filename)` with the file as found. -/
def SymbolicJournal.new (file : Option (List JournalEntry)) : SymbolicJournal :=
  ⟨file, PowerLawAnalyzer.new, KnowledgeGraph.new⟩

/-- The `turn_entry` object built by `add_turn`. -/
def turn_entry (turn : DialogueTurn) (observer : Observer) (interference : String)
    (affinity : ℚ) : JournalEntry :=
  { context_affinity := affinity
    context_interference := interference
    context_previous_observer := observer.name
    input := turn.input
    message := turn.message
    metrics_delta_O := turn.delta_O
    metrics_entropy := turn.entropy
    mode := turn.mode
    observer_belief_field := observer.belief_field
    observer_modulation_strength := observer.modulation_strength
    observer_name := observer.name
    observer_perceptual_bandwidth := observer.perceptual_bandwidth
    observer_symbol := observer.symbol
    response := turn.response
    sigil := turn.sigil
    tags := turn.tags
    timestamp := turn.timestamp
    turn_id := turn.turn_id }

/-- `SymbolicJournal::add_turn`.  The first component of the argument and of the
result is the `static std::string previous_sigil`, one variable for all
journals. -/
def SymbolicJournal.add_turn (previous_sigil : String) (j : SymbolicJournal)
    (turn : DialogueTurn) (observer : Observer) (interference : String) (affinity : ℚ) :
    String × SymbolicJournal :=
  let journal : List JournalEntry :=
    match j.file with
    | some entries => entries
    | none => []
  let journal := journal ++ [turn_entry turn observer interference affinity]
  let power_law_analyzer := j.power_law_analyzer.logEvent turn.entropy
  let knowledge_graph := j.knowledge_graph.addSymbol turn.sigil
  let knowledge_graph := knowledge_graph.addSymbol observer.symbol
  let knowledge_graph := knowledge_graph.addRelationship observer.symbol turn.sigil
  let knowledge_graph :=
    if previous_sigil ≠ "" then knowledge_graph.addRelationship previous_sigil turn.sigil
    else knowledge_graph
  (turn.sigil, ⟨some journal, power_law_analyzer, knowledge_graph⟩)

/-- The arguments of one `add_turn` call. -/
structure TurnCall where
  turn : DialogueTurn
  observer : Observer
  interference : String
  affinity : ℚ

/-- A run of `add_turn` calls on one journal, in order. -/
def SymbolicJournal.add_turns (previous_sigil : String) (j : SymbolicJournal) :
    List TurnCall → String × SymbolicJournal
  | [] => (previous_sigil, j)
  | c :: rest =>
      let r := SymbolicJournal.add_turn previous_sigil j c.turn c.observer c.interference c.affinity
      SymbolicJournal.add_turns r.1 r.2 rest

/-- The edge list the chaining rule describes: for each turn observer-symbol →
sigil, then previous sigil → sigil when there is a previous sigil. -/
def chain_edges : Option String → List TurnCall → List (String × String)
  | _, [] => []
  | none, c :: rest =>
      (c.observer.symbol, c.turn.sigil) :: chain_edges (some c.turn.sigil) rest
  | some p, c :: rest =>
      (c.observer.symbol, c.turn.sigil) :: (p, c.turn.sigil) ::
        chain_edges (some c.turn.sigil) rest

/-! ## `fractal_shell.cpp` -/

/-- The weight of one observer, line 58 of `fractal_shell.cpp`. -/
def selection_weight (perceptual_bandwidth cumulative_entropy future_entropy
    cross_timeline_entropy : ℚ) : ℚ :=
  1 + perceptual_bandwidth * (cumulative_entropy + future_entropy + cross_timeline_entropy)

/-- The `weights` vector of `process_input`. -/
def selection_weights (observers : List Observer) (cumulative_entropy future_entropy
    cross_timeline_entropy : ℚ) : List ℚ :=
  observers.map fun o =>
    selection_weight o.perceptual_bandwidth cumulative_entropy future_entropy
      cross_timeline_entropy

/-- What one `process_input` call takes from its environment, in the order of
use: the first `generate_power_law` value, the index returned by the
`discrete_distribution` for the given weights, the choice made inside
`generate_dialogue_response`, the `float` value of the right-hand side of line 72
(`0.9f + static_cast<float>(rand()) / static_cast<float>(RAND_MAX / 1.0f)`), the
three entropy candidates, the clock, the uuid, and the binary32 addition of the
machine, used by line 83. -/
structure Draws where
  next_future_entropy : ℚ
  pick : List ℚ → Nat
  choice : Nat
  delta_O : ℚ
  candidate0 : ℚ
  candidate1 : ℚ
  candidate2 : ℚ
  timestamp : String
  turn_id : String
  float_add : ℚ → ℚ → ℚ

/-- The per-timeline variables `main` hands to `process_input`: `memory`
(`FractalMemoryCore::memory_`), the journal, and the three by-reference
scalars. -/
structure Timeline where
  memory : List String
  journal : SymbolicJournal
  previous_observer_name : String
  cumulative_entropy : ℚ
  future_entropy : ℚ

/-- The initial state of a timeline in `main`. -/
def Timeline.new (file : Option (List JournalEntry)) : Timeline :=
  ⟨[], SymbolicJournal.new file, "", 0, 0⟩

/-- Lines 86-99 of `process_input`: the interference narrative. -/
def interference_narrative (memory : List String) (obs : Observer) : String :=
  let interference := "No interference detected."
  match memory.getLast? with
  | none => interference
  | some prev_obs =>
      if obs.name ≠ prev_obs then
        let interference := "🔄 Interference from [" ++ prev_obs ++ "]: "
        if obs.name = "Grounded Realist" then
          interference ++ "Disagreement sensed, recalibrating."
        else if obs.name = "Fluid Mystic" then
          interference ++ "Resonant alignment detected."
        else
          interference ++ "Cognitive dissonance—symbolic friction rising."
      else interference

/-- Line 101 of `process_input`: the affinity handed to `add_turn`. -/
def turn_affinity (memory : List String) (obs : Observer) (previous_observer_name : String) : ℚ :=
  if memory.isEmpty then 1 else observer_affinity obs.name previous_observer_name

/-- The three prompts `process_input` treats as commands. -/
def is_command (prompt : String) : Bool :=
  prompt = ":observers" || prompt = ":save_power_law" || prompt = ":save_knowledge_graph"

/-- Lines 63-81 of `process_input`: the turn built for the selected observer. -/
def build_turn (prompt : String) (obs : Observer) (d : Draws) : DialogueTurn :=
  let input_lower := to_lower prompt
  let response := generate_dialogue_response prompt obs d.choice
  let mode := if obs.name = "Grounded Realist" then "semantic" else "token"
  let sigil :=
    if obs.name = "Grounded Realist" then "🔧 Calibration Node"
    else if obs.name = "Fluid Mystic" then "✶ Collapse Star"
    else "⨀ Quantum Eye"
  let delta_O := d.delta_O
  let entropy := max (max d.candidate0 d.candidate1) d.candidate2
  let message := get_message delta_O entropy
  let turn : DialogueTurn :=
    { input := prompt, response := response, message := message, mode := mode,
      sigil := sigil, delta_O := delta_O, entropy := entropy, tags := [],
      timestamp := "", turn_id := "" }
  let turn := { turn with tags := generate_tags turn input_lower }
  { turn with timestamp := d.timestamp, turn_id := d.turn_id }

/-- `process_input`, console and export output left out.  The result is `none`
where `observers[dis(gen)]` reads outside the vector; otherwise the timeline and
the shared `previous_sigil` after the call. -/
def process_input (prompt : String) (observers : List Observer) (t : Timeline)
    (cross_timeline_entropy : ℚ) (previous_sigil : String) (d : Draws) :
    Option (Timeline × String) :=
  if is_command prompt then some (t, previous_sigil)
  else
    let next_future_entropy := d.next_future_entropy
    let weights :=
      selection_weights observers t.cumulative_entropy t.future_entropy cross_timeline_entropy
    match observers[d.pick weights]? with
    | none => none
    | some obs =>
        let turn := build_turn prompt obs d
        let cumulative_entropy := d.float_add t.cumulative_entropy turn.entropy
        let future_entropy := next_future_entropy
        let interference := interference_narrative t.memory obs
        let affinity := turn_affinity t.memory obs t.previous_observer_name
        let r := SymbolicJournal.add_turn previous_sigil t.journal turn obs interference affinity
        some
          ({ memory := t.memory ++ [obs.name]
             journal := r.2
             previous_observer_name := obs.name
             cumulative_entropy := cumulative_entropy
             future_entropy := future_entropy }, r.1)

/-- The timeline states `main` can reach: the initial state followed by
`process_input` calls that return. -/
inductive Timeline.Reachable : Timeline → Prop
  | new (file : Option (List JournalEntry)) : Reachable (Timeline.new file)
  | step {t t' : Timeline} (prompt : String) (observers : List Observer)
      (cross_timeline_entropy : ℚ) (previous_sigil : String) (d : Draws) (ps' : String) :
      Reachable t →
      process_input prompt observers t cross_timeline_entropy previous_sigil d = some (t', ps') →
      Reachable t'

/-! ### The tag rules as the specification words them -/

/-- The text `s` contains `pat` as a contiguous run of characters. -/
def Contains (s pat : String) : Prop :=
  pat.data <:+: s.data

instance (s pat : String) : Decidable (Contains s pat) :=
  inferInstanceAs (Decidable (pat.data <:+: s.data))

/-- The seven tags in their fixed order, each with the truth value of its
predicate. -/
def tag_table (turn : DialogueTurn) (input_lower : String) : List (String × Bool) :=
  [ ("#entropy-spike", decide (turn.entropy > 1)),
    ("#high-decoherence", decide (turn.delta_O > 3 / 2)),
    ("#celebration", decide (Contains input_lower "happy" ∨ Contains input_lower "birth day")),
    ("#introspection",
      decide (Contains input_lower "uncertainty" ∨ Contains input_lower "doubt")),
    ("#symbol-request", decide (Contains input_lower "quantum eye")),
    ("#paradox", decide (turn.delta_O > 3 / 2 ∧ Contains turn.response "paradox")),
    ("#observer-interaction",
      decide (Contains input_lower "recursive oracle" ∨ Contains input_lower "fluid mystic" ∨
        Contains input_lower "grounded realist" ∨ Contains input_lower "recusive")) ]

/-- The sub-list of the seven tags whose predicate holds. -/
def tags_of_table (turn : DialogueTurn) (input_lower : String) : List String :=
  ((tag_table turn input_lower).filter (fun r => r.2)).map (fun r => r.1)

/-- The first observer of `main`. -/
def grounded_realist : Observer := ⟨"Grounded Realist", "🧱", 2 / 10, 22 / 100, 9 / 10⟩

/-- The second observer of `main`. -/
def fluid_mystic : Observer := ⟨"Fluid Mystic", "🌀", 85 / 100, 57 / 100, 15 / 10⟩

/-- The third observer of `main`. -/
def recursive_oracle : Observer := ⟨"Recursive Oracle", "👁", 95 / 100, 117 / 100, 81 / 100⟩

/-- The `observers` vector of `main`. -/
def main_observers : List Observer := [grounded_realist, fluid_mystic, recursive_oracle]

/-- The turn of the scenario: input "I feel happy today", forced `delta_O = 2.0`
and `entropy = 1.2`, response as given. -/
def scenario_turn (response : String) : DialogueTurn :=
  { input := "I feel happy today", response := response,
    message := get_message 2 (6 / 5), mode := "semantic", sigil := "🔧 Calibration Node",
    delta_O := 2, entropy := 6 / 5, tags := [], timestamp := "", turn_id := "" }

/-- The two calls of the graph scenario: observer "🧱" with sigil "A", then
observer "🌀" with sigil "B". -/
def graph_scenario : List TurnCall :=
  [ { turn := { input := "", response := "", message := "", mode := "", sigil := "A",
                delta_O := 1, entropy := 1, tags := [], timestamp := "", turn_id := "" }
      observer := ⟨"Grounded Realist", "🧱", 2 / 10, 22 / 100, 9 / 10⟩
      interference := "No interference detected."
      affinity := 1 },
    { turn := { input := "", response := "", message := "", mode := "", sigil := "B",
                delta_O := 1, entropy := 1, tags := [], timestamp := "", turn_id := "" }
      observer := ⟨"Fluid Mystic", "🌀", 85 / 100, 57 / 100, 15 / 10⟩
      interference := "No interference detected."
      affinity := 1 } ]

/-- Environment values for the scenario turns: the distribution returns index
`i`, the response choice is 1. -/
def scenario_draws (i : Nat) : Draws :=
  { next_future_entropy := 1 / 2, pick := fun _ => i, choice := 1, delta_O := 23 / 20,
    candidate0 := 3 / 10, candidate1 := 12 / 10, candidate2 := 1 / 5,
    timestamp := "2025-01-01T00:00:00Z", turn_id := "00000000-0000-4000-8000-000000000000",
    float_add := fun x y => x + y }

/-- A timeline before its first turn whose `previous_observer_name` holds a
name all the same. -/
def fresh_timeline : Timeline :=
  ⟨[], SymbolicJournal.new none, "Fluid Mystic", 0, 0⟩

/-- A timeline whose only turn so far was taken by the Fluid Mystic. -/
def mystic_timeline : Timeline :=
  ⟨["Fluid Mystic"], SymbolicJournal.new (some []), "Fluid Mystic", 12 / 10, 1 / 2⟩

/-- The product without rounding: what the machine computes where the exact product
is a binary64 number, as for the samples of the examples below. -/
def exact_product (x y : ℚ) : ℚ :=
  x * y

/-- The timeline after the first turn of a run of `main`, taken by the observer
the distribution selects at index 1. -/
def after_first_turn : Timeline :=
  ((process_input "hello" main_observers (Timeline.new none) 0 "" (scenario_draws 1)).map
    Prod.fst).getD (Timeline.new none)

/-- Environment values with a divergence above the threshold, `delta_O = 1.8`; the
response choice is 2. -/
def high_divergence_draws : Draws :=
  { next_future_entropy := 1 / 2, pick := fun _ => 2, choice := 2, delta_O := 9 / 5,
    candidate0 := 3 / 10, candidate1 := 12 / 10, candidate2 := 1 / 5,
    timestamp := "2025-01-01T00:00:00Z", turn_id := "00000000-0000-4000-8000-000000000001",
    float_add := fun x y => x + y }

/-! ## Theorems -/

/-- A search started at any position succeeds exactly when the pattern is a
contiguous part of the remaining text. -/
theorem findFrom_isSome_iff (pat hay : List Char) (pos : Nat) :
    (findFrom pat hay pos).isSome = true ↔ pat <:+: hay := by
  induction hay generalizing pos with
  | nil =>
      cases pat with
      | nil => simp [findFrom]
      | cons p ps => simp [findFrom]
  | cons c rest ih =>
      rw [findFrom, List.infix_cons_iff]
      by_cases h : pat.isPrefixOf (c :: rest) = true
      · simp only [h, if_true, Option.isSome_some, true_iff]
        exact Or.inl (List.isPrefixOf_iff_prefix.mp h)
      · simp only [h, if_false, Bool.false_eq_true]
        rw [ih]
        constructor
        · exact Or.inr
        · rintro (hp | hi)
          · exact absurd (List.isPrefixOf_iff_prefix.mpr hp) h
          · exact hi

/-- The search of `std::string::find` decides containment. -/
theorem found_iff_contains (s pat : String) : found s pat = true ↔ Contains s pat := by
  unfold found find Contains
  exact findFrom_isSome_iff _ _ _

/-- The boolean search and the containment predicate agree. -/
theorem found_eq_decide (s pat : String) : found s pat = decide (Contains s pat) := by
  rw [Bool.eq_iff_iff]
  simp [found_iff_contains]

/-- The response of the Grounded Realist is one of its three canned phrases. -/
theorem grounded_realist_response (input : String) (choice : Nat) :
    generate_dialogue_response input grounded_realist choice = "Generated: observer signal signal" ∨
    generate_dialogue_response input grounded_realist choice = "Generated: calibration in progress" ∨
    generate_dialogue_response input grounded_realist choice = "Generated: semantic anchor detected" := by
  have hn : grounded_realist.name = "Grounded Realist" := rfl
  unfold generate_dialogue_response
  simp only [hn, if_true]
  by_cases h0 : choice = 0
  · left; simp only [h0, if_true]; decide
  · by_cases h1 : choice = 1
    · right; left; simp only [h1, if_true]; decide
    · right; right; simp only [h0, h1, if_false]; decide

/-- C1. `generate_tags` returns, for every turn and every lower-cased input, exactly
the sub-list of the seven tags (in their fixed order) whose predicate holds, the
predicates being worded with containment of text; and in the scenario (input
"I feel happy today" lower-cased, `delta_O = 2.0`, `entropy = 1.2`, any Grounded
Realist response) the tags are `#entropy-spike`, `#high-decoherence`, `#celebration`
and none of `#introspection`, `#symbol-request`, `#observer-interaction`. -/
theorem generate_tags_spec :
    (∀ (turn : DialogueTurn) (input_lower : String),
      generate_tags turn input_lower = tags_of_table turn input_lower) ∧
    to_lower "I feel happy today" = "i feel happy today" ∧
    (∀ choice : Nat,
      let tags :=
        generate_tags
          (scenario_turn (generate_dialogue_response "I feel happy today" grounded_realist choice))
          (to_lower "I feel happy today")
      tags = ["#entropy-spike", "#high-decoherence", "#celebration"] ∧
      "#entropy-spike" ∈ tags ∧ "#high-decoherence" ∈ tags ∧ "#celebration" ∈ tags ∧
      "#introspection" ∉ tags ∧ "#symbol-request" ∉ tags ∧ "#observer-interaction" ∉ tags) := by
  refine ⟨?_, by decide, ?_⟩
  · intro turn input_lower
    simp only [generate_tags, tags_of_table, tag_table, found_eq_decide, Bool.or_eq_true,
      decide_eq_true_eq, or_assoc, List.nil_append]
    by_cases h1 : turn.entropy > 1 <;> by_cases h2 : turn.delta_O > 3 / 2 <;>
    by_cases h3 : (Contains input_lower "happy" ∨ Contains input_lower "birth day") <;>
    by_cases h4 : (Contains input_lower "uncertainty" ∨ Contains input_lower "doubt") <;>
    by_cases h5 : Contains input_lower "quantum eye" <;>
    by_cases h6 : Contains turn.response "paradox" <;>
    by_cases h7 : (Contains input_lower "recursive oracle" ∨ Contains input_lower "fluid mystic" ∨
          Contains input_lower "grounded realist" ∨ Contains input_lower "recusive") <;>
    simp only [h1, h2, h3, h4, h5, h6, h7, List.filter, if_true, if_false, and_self, and_true,
      and_false, false_and, true_and, decide_True, decide_False, List.map, List.append_assoc,
      List.cons_append, List.nil_append, List.singleton_append]
  · intro choice
    have hl : to_lower "I feel happy today" = "i feel happy today" := by decide
    have h1 : found "i feel happy today" "happy" = true := by decide
    have h2 : found "i feel happy today" "uncertainty" = false := by decide
    have h3 : found "i feel happy today" "doubt" = false := by decide
    have h4 : found "i feel happy today" "quantum eye" = false := by decide
    have h5 : found "i feel happy today" "recursive oracle" = false := by decide
    have h6 : found "i feel happy today" "fluid mystic" = false := by decide
    have h7 : found "i feel happy today" "grounded realist" = false := by decide
    have h8 : found "i feel happy today" "recusive" = false := by decide
    have h9 : found (generate_dialogue_response "I feel happy today" grounded_realist choice)
        "paradox" = false := by
      rcases grounded_realist_response "I feel happy today" choice with h | h | h <;>
        rw [h] <;> decide
    have he : ((6 : ℚ) / 5 > 1) := by norm_num
    have hd : ((2 : ℚ) > 3 / 2) := by norm_num
    have key : generate_tags
          (scenario_turn (generate_dialogue_response "I feel happy today" grounded_realist choice))
          (to_lower "I feel happy today") =
        ["#entropy-spike", "#high-decoherence", "#celebration"] := by
      simp only [generate_tags, scenario_turn, hl, h1, h2, h3, h4, h5, h6, h7, h8, h9, he, hd,
        if_true, Bool.true_or, Bool.or_self, Bool.false_eq_true, if_false, and_false,
        List.nil_append, List.cons_append]
    simp only [key]
    decide

/-- C2. `observer_affinity` is symmetric for every pair of strings. -/
theorem observer_affinity_symm (a b : String) :
    observer_affinity a b = observer_affinity b a := by
  unfold observer_affinity
  generalize "Grounded Realist" = gr
  generalize "Fluid Mystic" = fm
  generalize "Recursive Oracle" = ro
  by_cases h : a = b
  · subst h
    rfl
  · have h' : ¬ b = a := fun e => h e.symm
    have e1 : ((b = gr ∧ a = fm) ∨ (b = fm ∧ a = gr)) ↔ ((a = gr ∧ b = fm) ∨ (a = fm ∧ b = gr)) :=
      or_comm.trans (or_congr and_comm and_comm)
    have e2 : ((b = ro ∧ a = fm) ∨ (b = fm ∧ a = ro)) ↔ ((a = ro ∧ b = fm) ∨ (a = fm ∧ b = ro)) :=
      or_comm.trans (or_congr and_comm and_comm)
    have e3 : ((b = gr ∧ a = ro) ∨ (b = ro ∧ a = gr)) ↔ ((a = gr ∧ b = ro) ∨ (a = ro ∧ b = gr)) :=
      or_comm.trans (or_congr and_comm and_comm)
    simp only [h, h', if_false, e1, e2, e3]

/-- C3. `observer_affinity` is the table of the specification: equal names give 1.0,
the unordered pair Grounded Realist / Fluid Mystic gives 0.7, Recursive Oracle /
Fluid Mystic gives 0.85, Grounded Realist / Recursive Oracle gives 0.6, and every
other pair of distinct strings gives 0.5. -/
theorem observer_affinity_table (a b : String) :
    (a = b → observer_affinity a b = 1) ∧
    (s(a, b) = s("Grounded Realist", "Fluid Mystic") → observer_affinity a b = 7 / 10) ∧
    (s(a, b) = s("Recursive Oracle", "Fluid Mystic") → observer_affinity a b = 85 / 100) ∧
    (s(a, b) = s("Grounded Realist", "Recursive Oracle") → observer_affinity a b = 6 / 10) ∧
    (a ≠ b → s(a, b) ≠ s("Grounded Realist", "Fluid Mystic") →
      s(a, b) ≠ s("Recursive Oracle", "Fluid Mystic") →
      s(a, b) ≠ s("Grounded Realist", "Recursive Oracle") → observer_affinity a b = 5 / 10) := by
  have gf : ("Grounded Realist" : String) ≠ "Fluid Mystic" := by decide
  have gr : ("Grounded Realist" : String) ≠ "Recursive Oracle" := by decide
  have fr : ("Fluid Mystic" : String) ≠ "Recursive Oracle" := by decide
  simp only [Sym2.eq_iff, ne_eq]
  unfold observer_affinity
  generalize "Grounded Realist" = g at *
  generalize "Fluid Mystic" = f at *
  generalize "Recursive Oracle" = r at *
  refine ⟨fun h => by simp only [h, if_true], ?_, ?_, ?_, ?_⟩
  · rintro (⟨rfl, rfl⟩ | ⟨rfl, rfl⟩) <;> simp [gf, gf.symm]
  · rintro (⟨rfl, rfl⟩ | ⟨rfl, rfl⟩) <;> simp [gf, gf.symm, gr, gr.symm, fr, fr.symm]
  · rintro (⟨rfl, rfl⟩ | ⟨rfl, rfl⟩) <;> simp [gf, gf.symm, gr, gr.symm, fr, fr.symm]
  · intro hab h1 h2 h3
    simp only [hab, h1, h2, h3, if_false]

/-- The table of C3 read at the pair Fluid Mystic / Grounded Realist and at a pair
of names outside the three personas. -/
theorem observer_affinity_table_witness :
    observer_affinity "Fluid Mystic" "Grounded Realist" = 7 / 10 ∧
    observer_affinity "Sceptic" "Fluid Mystic" = 5 / 10 :=
  ⟨(observer_affinity_table "Fluid Mystic" "Grounded Realist").2.1 Sym2.eq_swap,
   (observer_affinity_table "Sceptic" "Fluid Mystic").2.2.2.2 (by decide)
     (by simp only [ne_eq, Sym2.eq_iff]; decide) (by simp only [ne_eq, Sym2.eq_iff]; decide)
     (by simp only [ne_eq, Sym2.eq_iff]; decide)⟩

/-! ### The knowledge graph -/

/-- Wrapping commutes with the increment. -/
theorem wrapInt32_succ (x : Int) : wrapInt32 (wrapInt32 x + 1) = wrapInt32 (x + 1) := by
  unfold wrapInt32
  omega

/-- Below `2^31` a natural number is its own wrapped value. -/
theorem wrapInt32_of_lt (n : Nat) (h : n < 2147483648) : wrapInt32 (n : Int) = n := by
  unfold wrapInt32
  omega

/-- `addSymbol` touches neither the edges nor the counter. -/
theorem addSymbol_edges (g : KnowledgeGraph) (s : String) :
    (g.addSymbol s).edges = g.edges ∧ (g.addSymbol s).edge_count = g.edge_count := by
  unfold KnowledgeGraph.addSymbol
  split <;> exact ⟨rfl, rfl⟩

/-- The nodes after `addSymbol` are the old nodes and the symbol. -/
theorem mem_addSymbol (g : KnowledgeGraph) (s x : String) :
    x ∈ (g.addSymbol s).nodes ↔ x ∈ g.nodes ∨ x = s := by
  unfold KnowledgeGraph.addSymbol
  split
  · rename_i h
    constructor
    · exact Or.inl
    · rintro (h' | rfl)
      · exact h'
      · exact h
  · simp

/-- The edges after `addRelationship`. -/
theorem addRelationship_edges (g : KnowledgeGraph) (a b : String) :
    (g.addRelationship a b).edges = g.edges ++ [⟨a, b, g.edge_count⟩] ∧
    (g.addRelationship a b).edge_count = wrapInt32 (g.edge_count + 1) := by
  unfold KnowledgeGraph.addRelationship
  simp only [(addSymbol_edges _ _).1, (addSymbol_edges _ _).2, and_self]

/-- The nodes after `addRelationship`. -/
theorem mem_addRelationship (g : KnowledgeGraph) (a b x : String) :
    x ∈ (g.addRelationship a b).nodes ↔ x ∈ g.nodes ∨ x = a ∨ x = b := by
  unfold KnowledgeGraph.addRelationship
  simp only [mem_addSymbol, or_assoc]

/-- In every reachable graph the counter is the wrapped number of edges and the
`i`-th edge carries the wrapped label `i`. -/
theorem reachable_labels {g : KnowledgeGraph} (h : g.Reachable) :
    g.edge_count = wrapInt32 g.edges.length ∧
    g.edges.map Edge.label = (List.range g.edges.length).map fun (i : Nat) => wrapInt32 (i : Int) := by
  induction h with
  | new => exact ⟨by decide, rfl⟩
  | addSymbol s _ ih =>
      rw [(addSymbol_edges _ s).1, (addSymbol_edges _ s).2]
      exact ih
  | addRelationship a b _ ih =>
      rw [(addRelationship_edges _ a b).1, (addRelationship_edges _ a b).2]
      constructor
      · rw [ih.1, wrapInt32_succ]
        simp
      · rw [List.map_append, ih.2, List.length_append, List.length_singleton, List.range_succ,
          List.map_append, ih.1]
        rfl

/-- C7. In every graph state built by the constructor and the two mutators (before
the 32-bit counter wraps), `addRelationship(from, to)` leaves both symbols and all
earlier nodes in the node set, keeps every existing edge and appends exactly one
new edge `(from, to)` whether or not such an edge exists already, and the label of
the new edge is strictly greater than the label of every earlier edge. -/
theorem addRelationship_spec (g : KnowledgeGraph) (src dst : String) (hr : g.Reachable)
    (hlen : g.edges.length < 2147483648) :
    src ∈ (g.addRelationship src dst).nodes ∧ dst ∈ (g.addRelationship src dst).nodes ∧
    (∀ x ∈ g.nodes, x ∈ (g.addRelationship src dst).nodes) ∧
    (∃ e : Edge, (g.addRelationship src dst).edges = g.edges ++ [e] ∧
      e.tail = src ∧ e.head = dst ∧ ∀ old ∈ g.edges, old.label < e.label) := by
  refine ⟨?_, ?_, ?_, ⟨src, dst, g.edge_count⟩, (addRelationship_edges g src dst).1, rfl, rfl, ?_⟩
  · exact (mem_addRelationship g src dst src).2 (Or.inr (Or.inl rfl))
  · exact (mem_addRelationship g src dst dst).2 (Or.inr (Or.inr rfl))
  · intro x hx
    exact (mem_addRelationship g src dst x).2 (Or.inl hx)
  · intro old hold
    obtain ⟨hcount, hlabels⟩ := reachable_labels hr
    have hmem : old.label ∈ g.edges.map Edge.label := List.mem_map_of_mem _ hold
    rw [hlabels, List.mem_map] at hmem
    obtain ⟨i, hi, hli⟩ := hmem
    rw [List.mem_range] at hi
    show old.label < g.edge_count
    rw [hcount, wrapInt32_of_lt _ hlen, ← hli, wrapInt32_of_lt i (by omega)]
    exact_mod_cast hi

/-- C7 at a graph that already holds the edge `a → b`: adding `a → b` again appends
a second edge, labelled 1 after 0. -/
theorem addRelationship_spec_witness :
    (KnowledgeGraph.new.addRelationship "a" "b").Reachable ∧
    ((KnowledgeGraph.new.addRelationship "a" "b").addRelationship "a" "b").edges =
      [⟨"a", "b", 0⟩, ⟨"a", "b", 1⟩] ∧
    ∃ e : Edge, ((KnowledgeGraph.new.addRelationship "a" "b").addRelationship "a" "b").edges =
        (KnowledgeGraph.new.addRelationship "a" "b").edges ++ [e] ∧
      e.tail = "a" ∧ e.head = "b" ∧
      ∀ old ∈ (KnowledgeGraph.new.addRelationship "a" "b").edges, old.label < e.label :=
  ⟨.addRelationship "a" "b" .new, by decide,
   (addRelationship_spec (KnowledgeGraph.new.addRelationship "a" "b") "a" "b"
      (.addRelationship "a" "b" .new) (by decide)).2.2.2⟩

/-- C8. `addSymbol` is idempotent: a second call with the same symbol returns the
same graph (nodes, edges and counter), and a call with a symbol that is already a
node returns the graph unchanged. -/
theorem addSymbol_idempotent (g : KnowledgeGraph) (s : String) :
    (g.addSymbol s).addSymbol s = g.addSymbol s ∧ (s ∈ g.nodes → g.addSymbol s = g) := by
  have h2 : ∀ g' : KnowledgeGraph, s ∈ g'.nodes → g'.addSymbol s = g' := by
    intro g' h
    unfold KnowledgeGraph.addSymbol
    rw [if_pos h]
  exact ⟨h2 _ ((mem_addSymbol g s s).2 (Or.inr rfl)), h2 g⟩

/-- C8 at the empty graph and at a graph that holds the symbol. -/
theorem addSymbol_idempotent_witness :
    ((KnowledgeGraph.new.addSymbol "A").addSymbol "A" = ⟨["A"], [], 0⟩ ∧
      KnowledgeGraph.new.addSymbol "A" = ⟨["A"], [], 0⟩) ∧
    (⟨["A", "B"], [⟨"A", "B", 0⟩], 1⟩ : KnowledgeGraph).addSymbol "B" =
      ⟨["A", "B"], [⟨"A", "B", 0⟩], 1⟩ :=
  ⟨⟨((addSymbol_idempotent KnowledgeGraph.new "A").1).trans (by decide), by decide⟩,
   (addSymbol_idempotent ⟨["A", "B"], [⟨"A", "B", 0⟩], 1⟩ "B").2 (by decide)⟩

/-! ### `add_turn` and the graph -/

/-- The graph after one `add_turn`: the endpoints of its edges and its nodes. -/
theorem add_turn_graph (p : String) (j : SymbolicJournal) (turn : DialogueTurn)
    (observer : Observer) (interference : String) (affinity : ℚ) :
    (SymbolicJournal.add_turn p j turn observer interference affinity).1 = turn.sigil ∧
    (SymbolicJournal.add_turn p j turn observer interference affinity).2.knowledge_graph.edges.map
        (fun e => (e.tail, e.head)) =
      j.knowledge_graph.edges.map (fun e => (e.tail, e.head)) ++
        (observer.symbol, turn.sigil) :: (if p ≠ "" then [(p, turn.sigil)] else []) ∧
    ∀ x, x ∈ (SymbolicJournal.add_turn p j turn observer interference
          affinity).2.knowledge_graph.nodes ↔
      x ∈ j.knowledge_graph.nodes ∨ x = observer.symbol ∨ x = turn.sigil ∨ (p ≠ "" ∧ x = p) := by
  unfold SymbolicJournal.add_turn
  refine ⟨rfl, ?_, ?_⟩
  · by_cases hp : p = ""
    · simp [hp, (addRelationship_edges _ _ _).1, (addSymbol_edges _ _).1]
    · simp [hp, (addRelationship_edges _ _ _).1, (addSymbol_edges _ _).1]
  · intro x
    by_cases hp : p = ""
    · simp only [hp, ne_eq, not_true_eq_false, if_false, mem_addRelationship, mem_addSymbol,
        false_and, or_false]
      tauto
    · simp only [hp, ne_eq, not_false_eq_true, if_true, mem_addRelationship, mem_addSymbol,
        true_and]
      tauto

/-- The graph after a run of `add_turn` calls with non-empty sigils, from any
journal and any previous sigil. -/
theorem add_turns_graph (calls : List TurnCall) :
    ∀ (p : String) (j : SymbolicJournal), (∀ c ∈ calls, c.turn.sigil ≠ "") →
    (SymbolicJournal.add_turns p j calls).2.knowledge_graph.edges.map
        (fun e => (e.tail, e.head)) =
      j.knowledge_graph.edges.map (fun e => (e.tail, e.head)) ++
        chain_edges (if p = "" then none else some p) calls ∧
    ∀ x, x ∈ (SymbolicJournal.add_turns p j calls).2.knowledge_graph.nodes ↔
      x ∈ j.knowledge_graph.nodes ∨ (p ≠ "" ∧ calls ≠ [] ∧ x = p) ∨
        ∃ c ∈ calls, x = c.observer.symbol ∨ x = c.turn.sigil := by
  induction calls with
  | nil =>
      intro p j _
      constructor
      · cases h : (if p = "" then none else some p) <;> simp [SymbolicJournal.add_turns, chain_edges]
      · intro x
        simp [SymbolicJournal.add_turns]
  | cons c rest ih =>
      intro p j hs
      have hc : c.turn.sigil ≠ "" := hs c (List.mem_cons_self _ _)
      have hrest : ∀ c' ∈ rest, c'.turn.sigil ≠ "" := fun c' h => hs c' (List.mem_cons_of_mem _ h)
      obtain ⟨h1, h2, h3⟩ := add_turn_graph p j c.turn c.observer c.interference c.affinity
      obtain ⟨ihe, ihn⟩ := ih (SymbolicJournal.add_turn p j c.turn c.observer c.interference
        c.affinity).1 (SymbolicJournal.add_turn p j c.turn c.observer c.interference c.affinity).2
        hrest
      simp only [SymbolicJournal.add_turns]
      constructor
      · rw [ihe, h2, h1, if_neg hc]
        by_cases hp : p = ""
        · simp [hp, chain_edges]
        · simp [hp, chain_edges]
      · intro x
        rw [ihn, h3, h1]
        simp only [List.mem_cons, exists_eq_or_imp, ne_eq, not_false_eq_true, true_and,
          reduceCtorEq]
        constructor
        · rintro ((h | h | h | h) | h | h)
          · exact Or.inl h
          · exact Or.inr (Or.inr (Or.inl (Or.inl h)))
          · exact Or.inr (Or.inr (Or.inl (Or.inr h)))
          · exact Or.inr (Or.inl h)
          · exact Or.inr (Or.inr (Or.inl (Or.inr h.2.2)))
          · exact Or.inr (Or.inr (Or.inr h))
        · rintro (h | h | (h | h) | h)
          · exact Or.inl (Or.inl h)
          · exact Or.inl (Or.inr (Or.inr (Or.inr h)))
          · exact Or.inl (Or.inr (Or.inl h))
          · exact Or.inl (Or.inr (Or.inr (Or.inl h)))
          · exact Or.inr (Or.inr h)

/-- C6. From an empty graph and no previous sigil, a run of `add_turn` calls with
non-empty sigils yields a graph whose nodes are exactly the observer symbols and
sigils of the calls and whose edges are, in order, observer-symbol → sigil for each
turn followed (from the second turn on) by previous sigil → sigil; for the turns
("🧱", "A") then ("🌀", "B") the nodes are 🧱, 🌀, A, B and the edges are 🧱→A, 🌀→B,
A→B with the labels 0, 1, 2. -/
theorem add_turns_graph_spec :
    (∀ (file : Option (List JournalEntry)) (calls : List TurnCall),
      (∀ c ∈ calls, c.turn.sigil ≠ "") →
      (∀ x, x ∈ (SymbolicJournal.add_turns "" (SymbolicJournal.new file)
            calls).2.knowledge_graph.nodes ↔
          ∃ c ∈ calls, x = c.observer.symbol ∨ x = c.turn.sigil) ∧
      (SymbolicJournal.add_turns "" (SymbolicJournal.new file) calls).2.knowledge_graph.edges.map
          (fun e => (e.tail, e.head)) = chain_edges none calls) ∧
    (SymbolicJournal.add_turns "" (SymbolicJournal.new none) graph_scenario).2.knowledge_graph =
      ⟨["A", "🧱", "B", "🌀"], [⟨"🧱", "A", 0⟩, ⟨"🌀", "B", 1⟩, ⟨"A", "B", 2⟩], 3⟩ ∧
    (∀ x, x ∈ (SymbolicJournal.add_turns "" (SymbolicJournal.new none)
          graph_scenario).2.knowledge_graph.nodes ↔ x ∈ ["🧱", "🌀", "A", "B"]) ∧
    ((SymbolicJournal.add_turns "" (SymbolicJournal.new none)
        graph_scenario).2.knowledge_graph.edges.map Edge.label).Pairwise (· < ·) := by
  have hg : (SymbolicJournal.add_turns "" (SymbolicJournal.new none)
      graph_scenario).2.knowledge_graph =
      ⟨["A", "🧱", "B", "🌀"], [⟨"🧱", "A", 0⟩, ⟨"🌀", "B", 1⟩, ⟨"A", "B", 2⟩], 3⟩ := by decide
  refine ⟨?_, hg, ?_, ?_⟩
  · intro file calls hs
    obtain ⟨he, hn⟩ := add_turns_graph calls "" (SymbolicJournal.new file) hs
    constructor
    · intro x
      rw [hn]
      simp [SymbolicJournal.new, KnowledgeGraph.new]
    · rw [he]
      simp [SymbolicJournal.new, KnowledgeGraph.new]
  · intro x
    rw [hg]
    simp only [List.mem_cons, List.mem_singleton, List.not_mem_nil, or_false]
    tauto
  · rw [hg]
    decide

/-- C6 applied to the two-turn scenario. -/
theorem add_turns_graph_spec_witness :
    (∀ c ∈ graph_scenario, c.turn.sigil ≠ "") ∧
    (SymbolicJournal.add_turns "" (SymbolicJournal.new none)
        graph_scenario).2.knowledge_graph.edges.map (fun e => (e.tail, e.head)) =
      [("🧱", "A"), ("🌀", "B"), ("A", "B")] :=
  ⟨by decide, ((add_turns_graph_spec.1 none graph_scenario (by decide)).2).trans (by decide)⟩

/-! ### `process_input` -/

/-- The templated interference sentence differs from the default one. -/
theorem interference_prefix_ne (prev suffix : String) :
    "🔄 Interference from [" ++ prev ++ "]: " ++ suffix ≠ "No interference detected." := by
  intro h
  have h2 := congrArg (fun s : String => s.data.head?) h
  simp only [String.data_append, List.append_assoc, List.cons_append, List.head?_cons,
    Option.some.injEq] at h2
  exact absurd h2 (by decide)

/-- A prompt that is no command, with an observer selected, makes `process_input`
return and append one entry to the journal file; the entry carries the affinity and
interference computed from the timeline as it was before the call. -/
theorem process_input_entry (prompt : String) (observers : List Observer) (t : Timeline)
    (cross_timeline_entropy : ℚ) (previous_sigil : String) (d : Draws) (obs : Observer)
    (hc : is_command prompt = false)
    (hobs : observers[d.pick (selection_weights observers t.cumulative_entropy t.future_entropy
      cross_timeline_entropy)]? = some obs) :
    ∃ (t' : Timeline) (ps' : String),
      process_input prompt observers t cross_timeline_entropy previous_sigil d = some (t', ps') ∧
      t'.journal.file = some ((t.journal.file.getD []) ++
        [turn_entry (build_turn prompt obs d) obs (interference_narrative t.memory obs)
          (turn_affinity t.memory obs t.previous_observer_name)]) ∧
      t'.memory = t.memory ++ [obs.name] ∧ t'.previous_observer_name = obs.name := by
  unfold process_input
  simp only [hc, Bool.false_eq_true, if_false, hobs]
  refine ⟨_, _, rfl, ?_, rfl, rfl⟩
  unfold SymbolicJournal.add_turn
  cases t.journal.file <;> rfl

/-- C4. On the first turn of a timeline (empty persona history) `process_input`
writes a journal entry with affinity 1.0 and the interference narrative
"No interference detected.", for every selected persona and every value of
`previous_observer_name`. -/
theorem first_turn_context (prompt : String) (observers : List Observer) (t : Timeline)
    (cross_timeline_entropy : ℚ) (previous_sigil : String) (d : Draws) (obs : Observer)
    (hc : is_command prompt = false)
    (hobs : observers[d.pick (selection_weights observers t.cumulative_entropy t.future_entropy
      cross_timeline_entropy)]? = some obs)
    (hmem : t.memory = []) :
    turn_affinity t.memory obs t.previous_observer_name = 1 ∧
    interference_narrative t.memory obs = "No interference detected." ∧
    ∃ (t' : Timeline) (ps' : String) (e : JournalEntry),
      process_input prompt observers t cross_timeline_entropy previous_sigil d = some (t', ps') ∧
      t'.journal.file = some ((t.journal.file.getD []) ++ [e]) ∧
      e.context_affinity = 1 ∧ e.context_interference = "No interference detected." := by
  have ha : turn_affinity t.memory obs t.previous_observer_name = 1 := by
    simp [turn_affinity, hmem]
  have hi : interference_narrative t.memory obs = "No interference detected." := by
    simp [interference_narrative, hmem]
  obtain ⟨t', ps', h1, h2, _⟩ :=
    process_input_entry prompt observers t cross_timeline_entropy previous_sigil d obs hc hobs
  exact ⟨ha, hi, t', ps', _, h1, h2, ha, hi⟩

/-- C4 at a fresh timeline whose `previous_observer_name` is "Fluid Mystic" and whose
selected persona is the Recursive Oracle. -/
theorem first_turn_context_witness :
    turn_affinity fresh_timeline.memory recursive_oracle fresh_timeline.previous_observer_name
      = 1 ∧
    interference_narrative fresh_timeline.memory recursive_oracle
      = "No interference detected." ∧
    ∃ (t' : Timeline) (ps' : String) (e : JournalEntry),
      process_input "hello oracle" main_observers fresh_timeline 0 "" (scenario_draws 2)
        = some (t', ps') ∧
      t'.journal.file = some ((fresh_timeline.journal.file.getD []) ++ [e]) ∧
      e.context_affinity = 1 ∧ e.context_interference = "No interference detected." :=
  first_turn_context "hello oracle" main_observers fresh_timeline 0 "" (scenario_draws 2)
    recursive_oracle (by decide) rfl rfl

/-- The narrative of lines 86-99 by cases on the history and the persona. -/
theorem interference_narrative_cases (memory : List String) (obs : Observer) :
    (interference_narrative memory obs = "No interference detected." ↔
      memory = [] ∨ memory.getLast? = some obs.name) ∧
    ∀ prev, memory.getLast? = some prev → prev ≠ obs.name →
      (obs.name = "Grounded Realist" → interference_narrative memory obs =
        "🔄 Interference from [" ++ prev ++ "]: " ++ "Disagreement sensed, recalibrating.") ∧
      (obs.name = "Fluid Mystic" → interference_narrative memory obs =
        "🔄 Interference from [" ++ prev ++ "]: " ++ "Resonant alignment detected.") ∧
      (obs.name ≠ "Grounded Realist" → obs.name ≠ "Fluid Mystic" →
        interference_narrative memory obs =
          "🔄 Interference from [" ++ prev ++ "]: " ++
            "Cognitive dissonance—symbolic friction rising.") := by
  have gf : ("Fluid Mystic" : String) ≠ "Grounded Realist" := by decide
  unfold interference_narrative
  cases hl : memory.getLast? with
  | none =>
      refine ⟨⟨fun _ => Or.inl (List.getLast?_eq_none_iff.mp hl), fun _ => rfl⟩, ?_⟩
      intro prev hp
      cases hp
  | some last =>
      have hne : memory ≠ [] := by
        intro h
        rw [h] at hl
        cases hl
      constructor
      · by_cases hsame : obs.name = last
        · simp only [hsame, ne_eq, not_true_eq_false, if_false, or_true]
        · simp only [ne_eq, hsame, not_false_eq_true, if_true, hne, false_or, Option.some.injEq]
          constructor
          · intro h
            exfalso
            split at h
            · exact interference_prefix_ne _ _ h
            · split at h
              · exact interference_prefix_ne _ _ h
              · exact interference_prefix_ne _ _ h
          · intro h
            exact absurd h.symm hsame
      · intro prev hp hprev
        cases hp
        have hsame : obs.name ≠ last := fun h => hprev h.symm
        simp only [ne_eq, hsame, not_false_eq_true, if_true]
        refine ⟨fun h => ?_, fun h => ?_, fun h1 h2 => ?_⟩
        · rw [if_pos h]
        · rw [if_neg (by rw [h]; exact gf), if_pos h]
        · rw [if_neg h1, if_neg h2]

/-- C5. The interference narrative written for a turn is "No interference detected."
exactly when the persona history of the timeline is empty or ends with the current
persona; when the history ends with a different persona the narrative names that
persona and ends with "Disagreement sensed, recalibrating." for the Grounded Realist,
"Resonant alignment detected." for the Fluid Mystic and the dissonance sentence for
every other persona. -/
theorem interference_spec (prompt : String) (observers : List Observer) (t : Timeline)
    (cross_timeline_entropy : ℚ) (previous_sigil : String) (d : Draws) (obs : Observer)
    (hc : is_command prompt = false)
    (hobs : observers[d.pick (selection_weights observers t.cumulative_entropy t.future_entropy
      cross_timeline_entropy)]? = some obs) :
    ∃ (t' : Timeline) (ps' : String) (e : JournalEntry),
      process_input prompt observers t cross_timeline_entropy previous_sigil d = some (t', ps') ∧
      t'.journal.file = some ((t.journal.file.getD []) ++ [e]) ∧
      e.context_interference = interference_narrative t.memory obs ∧
      (e.context_interference = "No interference detected." ↔
        t.memory = [] ∨ t.memory.getLast? = some obs.name) ∧
      ∀ prev, t.memory.getLast? = some prev → prev ≠ obs.name →
        (obs.name = "Grounded Realist" → e.context_interference =
          "🔄 Interference from [" ++ prev ++ "]: " ++ "Disagreement sensed, recalibrating.") ∧
        (obs.name = "Fluid Mystic" → e.context_interference =
          "🔄 Interference from [" ++ prev ++ "]: " ++ "Resonant alignment detected.") ∧
        (obs.name ≠ "Grounded Realist" → obs.name ≠ "Fluid Mystic" →
          e.context_interference =
            "🔄 Interference from [" ++ prev ++ "]: " ++
              "Cognitive dissonance—symbolic friction rising.") := by
  obtain ⟨t', ps', h1, h2, _⟩ :=
    process_input_entry prompt observers t cross_timeline_entropy previous_sigil d obs hc hobs
  exact ⟨t', ps', _, h1, h2, rfl, (interference_narrative_cases t.memory obs).1,
    (interference_narrative_cases t.memory obs).2⟩

/-- C5 on a timeline whose previous turn was the Fluid Mystic, the Grounded Realist
being selected: the entry written carries the Grounded Realist sentence naming the
Fluid Mystic. -/
theorem interference_spec_witness :
    ∃ (t' : Timeline) (ps' : String) (e : JournalEntry),
      process_input "hello" main_observers mystic_timeline 0 "" (scenario_draws 0)
        = some (t', ps') ∧
      t'.journal.file = some [e] ∧
      e.context_interference =
        "🔄 Interference from [Fluid Mystic]: Disagreement sensed, recalibrating." := by
  obtain ⟨t', ps', e, h1, h2, _, _, h5⟩ :=
    interference_spec "hello" main_observers mystic_timeline 0 "" (scenario_draws 0)
      grounded_realist (by decide) rfl
  exact ⟨t', ps', e, h1, h2, ((h5 "Fluid Mystic" rfl (by decide)).1 rfl).trans (by decide)⟩

/-! ### Selection weights -/

/-- C13. `get_message` returns the divergence warning exactly when `delta_O` is
strictly greater than 1.5 and the fluctuation string otherwise; at `delta_O = 1.5`
it is the fluctuation string, and the entropy argument has no influence. -/
theorem get_message_spec :
    (∀ delta_O entropy : ℚ,
      get_message delta_O entropy = "⚠️ Divergence detected. Semantic clarity unraveling." ↔
        delta_O > 3 / 2) ∧
    (∀ delta_O entropy : ℚ,
      get_message delta_O entropy = "🔄 Meaning fluctuation within acceptable thresholds." ↔
        ¬ delta_O > 3 / 2) ∧
    (∀ entropy : ℚ,
      get_message (3 / 2) entropy = "🔄 Meaning fluctuation within acceptable thresholds.") ∧
    (∀ delta_O entropy entropy' : ℚ,
      get_message delta_O entropy = get_message delta_O entropy') := by
  have hne : ("⚠️ Divergence detected. Semantic clarity unraveling." : String) ≠
      "🔄 Meaning fluctuation within acceptable thresholds." := by decide
  refine ⟨?_, ?_, ?_, fun _ _ _ => rfl⟩
  · intro delta_O entropy
    unfold get_message
    by_cases h : delta_O > 3 / 2
    · simp only [h, if_true]
    · simp only [h, if_false, iff_false]
      exact fun e => hne e.symm
  · intro delta_O entropy
    unfold get_message
    by_cases h : delta_O > 3 / 2
    · simp only [h, if_true, not_true_eq_false, iff_false]
      exact hne
    · simp only [h, if_false, not_false_eq_true]
  · intro entropy
    unfold get_message
    rw [if_neg (lt_irrefl _)]

/-- The file after one `add_turn`: the entries read, then the new entry. -/
theorem add_turn_file (p : String) (j : SymbolicJournal) (turn : DialogueTurn)
    (observer : Observer) (interference : String) (affinity : ℚ) :
    (SymbolicJournal.add_turn p j turn observer interference affinity).2.file =
      some (j.file.getD [] ++ [turn_entry turn observer interference affinity]) := by
  unfold SymbolicJournal.add_turn
  cases j.file <;> rfl

/-- The file after a run of `add_turn` calls, read back with an absent file
counting as empty. -/
theorem add_turns_file (calls : List TurnCall) :
    ∀ (p : String) (j : SymbolicJournal),
      (SymbolicJournal.add_turns p j calls).2.file.getD [] =
        j.file.getD [] ++
          calls.map fun c => turn_entry c.turn c.observer c.interference c.affinity := by
  induction calls with
  | nil =>
      intro p j
      simp [SymbolicJournal.add_turns]
  | cons c rest ih =>
      intro p j
      simp only [SymbolicJournal.add_turns]
      rw [ih, add_turn_file]
      simp

/-- C14. When the persisted collection holds the entries `entries`, `add_turn`
rewrites it to `entries` followed by one entry that carries the input, response,
message, mode, sigil, delta_O, entropy, tags, timestamp and turn id of the turn, the
given affinity and interference, and the observer snapshot; a run of `add_turn`
calls on an absent collection leaves, when read back, one entry per call in call
order. -/
theorem add_turn_persistence :
    (∀ (p : String) (j : SymbolicJournal) (turn : DialogueTurn) (observer : Observer)
        (interference : String) (affinity : ℚ) (entries : List JournalEntry),
      j.file = some entries →
      ∃ e : JournalEntry,
        (SymbolicJournal.add_turn p j turn observer interference affinity).2.file =
          some (entries ++ [e]) ∧
        (entries ++ [e]).length = entries.length + 1 ∧
        e.input = turn.input ∧ e.response = turn.response ∧ e.message = turn.message ∧
        e.mode = turn.mode ∧ e.sigil = turn.sigil ∧ e.metrics_delta_O = turn.delta_O ∧
        e.metrics_entropy = turn.entropy ∧ e.tags = turn.tags ∧
        e.timestamp = turn.timestamp ∧ e.turn_id = turn.turn_id ∧
        e.context_affinity = affinity ∧ e.context_interference = interference ∧
        e.observer_name = observer.name ∧ e.observer_symbol = observer.symbol ∧
        e.observer_belief_field = observer.belief_field ∧
        e.observer_modulation_strength = observer.modulation_strength ∧
        e.observer_perceptual_bandwidth = observer.perceptual_bandwidth) ∧
    (∀ (p : String) (analyzer : PowerLawAnalyzer) (graph : KnowledgeGraph)
        (calls : List TurnCall),
      (SymbolicJournal.add_turns p ⟨none, analyzer, graph⟩ calls).2.file.getD [] =
        calls.map fun c => turn_entry c.turn c.observer c.interference c.affinity) := by
  constructor
  · intro p j turn observer interference affinity entries hfile
    refine ⟨turn_entry turn observer interference affinity, ?_, by simp, rfl, rfl, rfl, rfl,
      rfl, rfl, rfl, rfl, rfl, rfl, rfl, rfl, rfl, rfl, rfl, rfl, rfl⟩
    rw [add_turn_file, hfile]
    rfl
  · intro p analyzer graph calls
    rw [add_turns_file]
    rfl

/-- C14 on the two calls of the graph scenario, first with a collection that holds
one entry, then as a run on an absent collection. -/
theorem add_turn_persistence_witness :
    (∃ e : JournalEntry,
      (SymbolicJournal.add_turn "" (SymbolicJournal.new (some
          [turn_entry (scenario_turn "Generated: calibration in progress") grounded_realist
            "No interference detected." 1]))
        (scenario_turn "Generated: flow state activated") fluid_mystic "Resonant" (7 / 10)).2.file =
        some ([turn_entry (scenario_turn "Generated: calibration in progress") grounded_realist
            "No interference detected." 1] ++ [e]) ∧
      e.response = "Generated: flow state activated" ∧ e.context_affinity = 7 / 10 ∧
      e.observer_name = "Fluid Mystic") ∧
    ((SymbolicJournal.add_turns "" (SymbolicJournal.new none) graph_scenario).2.file.getD []).map
        (fun e => e.sigil) = ["A", "B"] := by
  constructor
  · obtain ⟨e, h1, _, _, h2, _, _, _, _, _, _, _, _, h3, _, h4, _⟩ :=
      add_turn_persistence.1 "" (SymbolicJournal.new (some
          [turn_entry (scenario_turn "Generated: calibration in progress") grounded_realist
            "No interference detected." 1]))
        (scenario_turn "Generated: flow state activated") fluid_mystic "Resonant" (7 / 10) _ rfl
    exact ⟨e, h1, h2, h3, h4⟩
  · have h := add_turn_persistence.2 "" PowerLawAnalyzer.new KnowledgeGraph.new graph_scenario
    have h' : (SymbolicJournal.add_turns "" (SymbolicJournal.new none) graph_scenario).2.file.getD []
        = graph_scenario.map fun c => turn_entry c.turn c.observer c.interference c.affinity := h
    rw [h']
    rfl

/-- The samples after one `add_turn`, whatever the previous sigil. -/
theorem add_turn_samples (p : String) (j : SymbolicJournal) (turn : DialogueTurn)
    (observer : Observer) (interference : String) (affinity : ℚ) :
    (SymbolicJournal.add_turn p j turn observer interference
        affinity).2.power_law_analyzer.event_sizes =
      j.power_law_analyzer.event_sizes ++ [turn.entropy] := rfl

/-- The samples after a run of `add_turn` calls. -/
theorem add_turns_samples (calls : List TurnCall) :
    ∀ (p : String) (j : SymbolicJournal),
      (SymbolicJournal.add_turns p j calls).2.power_law_analyzer.event_sizes =
        j.power_law_analyzer.event_sizes ++ calls.map fun c => c.turn.entropy := by
  induction calls with
  | nil =>
      intro p j
      simp [SymbolicJournal.add_turns]
  | cons c rest ih =>
      intro p j
      simp only [SymbolicJournal.add_turns]
      rw [ih, add_turn_samples]
      simp

/-- C15. `logEvent` only appends; every `add_turn`, whatever the previous sigil,
appends the entropy of its turn to the raw samples of the journal's analyzer; so
after any run of `add_turn` calls on a new journal the raw sample sequence is the
sequence of the entropies of the turns added, in the same order. -/
theorem samples_follow_turns :
    (∀ (a : PowerLawAnalyzer) (size : ℚ), (a.logEvent size).event_sizes = a.event_sizes ++ [size]) ∧
    (∀ (p : String) (j : SymbolicJournal) (turn : DialogueTurn) (observer : Observer)
        (interference : String) (affinity : ℚ),
      (SymbolicJournal.add_turn p j turn observer interference
          affinity).2.power_law_analyzer.event_sizes =
        j.power_law_analyzer.event_sizes ++ [turn.entropy]) ∧
    (∀ (p : String) (j : SymbolicJournal) (calls : List TurnCall),
      (SymbolicJournal.add_turns p j calls).2.power_law_analyzer.event_sizes =
        j.power_law_analyzer.event_sizes ++ calls.map fun c => c.turn.entropy) ∧
    (∀ (p : String) (file : Option (List JournalEntry)) (calls : List TurnCall),
      (SymbolicJournal.add_turns p (SymbolicJournal.new file)
          calls).2.power_law_analyzer.event_sizes = calls.map fun c => c.turn.entropy) := by
  refine ⟨fun _ _ => rfl, add_turn_samples, fun p j calls => add_turns_samples calls p j, ?_⟩
  intro p file calls
  rw [add_turns_samples]
  rfl

/-! ### The context block and the shared sigil -/

/-- C17 fails on the code: on a timeline whose previous turn was taken by the Fluid
Mystic, a turn taken by the Grounded Realist is written with the previous-observer
field "Grounded Realist", the name of the acting observer, as in its snapshot. -/
theorem previous_observer_field_is_acting_observer :
    mystic_timeline.memory.getLast? = some "Fluid Mystic" ∧
    mystic_timeline.previous_observer_name = "Fluid Mystic" ∧
    ∃ (t' : Timeline) (ps' : String) (e : JournalEntry),
      process_input "hello" main_observers mystic_timeline 0 "" (scenario_draws 0)
        = some (t', ps') ∧
      t'.journal.file = some [e] ∧
      e.observer_name = "Grounded Realist" ∧
      e.context_previous_observer = "Grounded Realist" := by
  refine ⟨rfl, rfl, ?_⟩
  obtain ⟨t', ps', h1, h2, _⟩ :=
    process_input_entry "hello" main_observers mystic_timeline 0 "" (scenario_draws 0)
      grounded_realist (by decide) rfl
  exact ⟨t', ps', _, h1, h2, rfl, rfl⟩

/-- The sigil `process_input` gives a turn is never empty. -/
theorem build_turn_sigil_ne (prompt : String) (obs : Observer) (d : Draws) :
    (build_turn prompt obs d).sigil ≠ "" := by
  have h : (build_turn prompt obs d).sigil =
      if obs.name = "Grounded Realist" then "🔧 Calibration Node"
      else if obs.name = "Fluid Mystic" then "✶ Collapse Star"
      else "⨀ Quantum Eye" := rfl
  rw [h]
  split
  · decide
  · split <;> decide

/-- C18. The previous-sigil pointer is one state for all journals: after a turn with
a (non-empty) sigil `s` was added to one journal, an `add_turn` on another journal
appends to that journal's graph the edge observer-symbol → sigil and then the
chaining edge `s` → sigil, makes `s` a node there, and leaves the pointer at the
sigil of the new turn; the sigils `process_input` assigns are never empty. -/
theorem shared_previous_sigil :
    (∀ (p : String) (j1 j2 : SymbolicJournal) (turn1 turn2 : DialogueTurn)
        (obs1 obs2 : Observer) (i1 i2 : String) (a1 a2 : ℚ),
      turn1.sigil ≠ "" →
      (SymbolicJournal.add_turn p j1 turn1 obs1 i1 a1).1 = turn1.sigil ∧
      (SymbolicJournal.add_turn (SymbolicJournal.add_turn p j1 turn1 obs1 i1 a1).1 j2 turn2 obs2
          i2 a2).2.knowledge_graph.edges.map (fun e => (e.tail, e.head)) =
        j2.knowledge_graph.edges.map (fun e => (e.tail, e.head)) ++
          [(obs2.symbol, turn2.sigil), (turn1.sigil, turn2.sigil)] ∧
      turn1.sigil ∈ (SymbolicJournal.add_turn (SymbolicJournal.add_turn p j1 turn1 obs1 i1 a1).1
          j2 turn2 obs2 i2 a2).2.knowledge_graph.nodes ∧
      (SymbolicJournal.add_turn (SymbolicJournal.add_turn p j1 turn1 obs1 i1 a1).1 j2 turn2 obs2
          i2 a2).1 = turn2.sigil) ∧
    (∀ (prompt : String) (obs : Observer) (d : Draws), (build_turn prompt obs d).sigil ≠ "") := by
  refine ⟨?_, build_turn_sigil_ne⟩
  intro p j1 j2 turn1 turn2 obs1 obs2 i1 i2 a1 a2 hs
  have h1 : (SymbolicJournal.add_turn p j1 turn1 obs1 i1 a1).1 = turn1.sigil := rfl
  obtain ⟨g1, g2, g3⟩ := add_turn_graph turn1.sigil j2 turn2 obs2 i2 a2
  rw [h1]
  refine ⟨rfl, ?_, ?_, g1⟩
  · rw [g2, if_pos hs]
  · exact (g3 turn1.sigil).2 (Or.inr (Or.inr (Or.inr ⟨hs, rfl⟩)))

/-- C18 at two new journals: a Grounded Realist turn built by `process_input` goes
to the first, then a Fluid Mystic turn to the second, whose graph receives the
edge from the first turn's sigil. -/
theorem shared_previous_sigil_witness :
    (SymbolicJournal.add_turn
        (SymbolicJournal.add_turn "" (SymbolicJournal.new none)
          (build_turn "hello" grounded_realist (scenario_draws 0)) grounded_realist
          "No interference detected." 1).1
        (SymbolicJournal.new none) (build_turn "again" fluid_mystic (scenario_draws 1))
        fluid_mystic "No interference detected." 1).2.knowledge_graph.edges.map
        (fun e => (e.tail, e.head)) =
      [("🌀", "✶ Collapse Star"), ("🔧 Calibration Node", "✶ Collapse Star")] :=
  (shared_previous_sigil.1 "" (SymbolicJournal.new none) (SymbolicJournal.new none)
    (build_turn "hello" grounded_realist (scenario_draws 0))
    (build_turn "again" fluid_mystic (scenario_draws 1)) grounded_realist fluid_mystic
    "No interference detected." "No interference detected." 1 1
    (shared_previous_sigil.2 _ _ _)).2.1

/-! ### The timeline invariant -/

/-- The affinity is 1.0 only for equal names. -/
theorem observer_affinity_eq_one_iff (a b : String) : observer_affinity a b = 1 ↔ a = b := by
  unfold observer_affinity
  constructor
  · intro h
    by_contra hab
    rw [if_neg hab] at h
    split at h
    · norm_num at h
    · split at h
      · norm_num at h
      · split at h <;> norm_num at h
  · intro h
    rw [if_pos h]

/-- What a returning `process_input` call did to the history and to
`previous_observer_name`: nothing for a command, else both received the name of the
selected observer. -/
theorem process_input_history (prompt : String) (observers : List Observer) (t t' : Timeline)
    (cross_timeline_entropy : ℚ) (previous_sigil ps' : String) (d : Draws)
    (h : process_input prompt observers t cross_timeline_entropy previous_sigil d
      = some (t', ps')) :
    t' = t ∨ ∃ obs : Observer,
      t'.memory = t.memory ++ [obs.name] ∧ t'.previous_observer_name = obs.name := by
  unfold process_input at h
  by_cases hc : is_command prompt = true
  · rw [if_pos hc] at h
    left
    cases h
    rfl
  · rw [if_neg hc] at h
    right
    cases hobs : observers[d.pick (selection_weights observers t.cumulative_entropy
        t.future_entropy cross_timeline_entropy)]? with
    | none =>
        simp only [hobs] at h
        cases h
    | some obs =>
        simp only [hobs] at h
        cases h
        exact ⟨obs, rfl, rfl⟩

/-- In a reachable timeline `previous_observer_name` is the last name of the
history, when there is one. -/
theorem reachable_previous_observer {t : Timeline} (hr : t.Reachable) :
    ∀ last, t.memory.getLast? = some last → t.previous_observer_name = last := by
  induction hr with
  | new file =>
      intro last h
      cases h
  | step prompt observers cross ps d ps' _ hstep ih =>
      intro last h
      rcases process_input_history _ _ _ _ _ _ _ _ hstep with rfl | ⟨obs, hm, hp⟩
      · exact ih last h
      · rw [hm, List.getLast?_append, List.getLast?_singleton] at h
        have h' : some obs.name = some last := h
        rw [hp]
        exact Option.some.inj h'

/-- C19. In every timeline state reachable from the initial state by `process_input`
calls, `previous_observer_name` is the last name of the persona history when the
history is not empty; so the affinity of a turn is 1.0 exactly when its interference
narrative is "No interference detected.", also in the entry `process_input` writes. -/
theorem affinity_one_iff_no_interference (t : Timeline) (hr : t.Reachable) :
    (∀ last, t.memory.getLast? = some last → t.previous_observer_name = last) ∧
    (∀ obs : Observer,
      turn_affinity t.memory obs t.previous_observer_name = 1 ↔
        interference_narrative t.memory obs = "No interference detected.") ∧
    (∀ (prompt : String) (observers : List Observer) (cross_timeline_entropy : ℚ)
        (previous_sigil : String) (d : Draws) (obs : Observer),
      is_command prompt = false →
      observers[d.pick (selection_weights observers t.cumulative_entropy t.future_entropy
        cross_timeline_entropy)]? = some obs →
      ∃ (t' : Timeline) (ps' : String) (e : JournalEntry),
        process_input prompt observers t cross_timeline_entropy previous_sigil d
          = some (t', ps') ∧
        t'.journal.file = some ((t.journal.file.getD []) ++ [e]) ∧
        (e.context_affinity = 1 ↔ e.context_interference = "No interference detected.")) := by
  have hinv := reachable_previous_observer hr
  have key : ∀ obs : Observer,
      turn_affinity t.memory obs t.previous_observer_name = 1 ↔
        interference_narrative t.memory obs = "No interference detected." := by
    intro obs
    rw [(interference_narrative_cases t.memory obs).1]
    unfold turn_affinity
    cases hl : t.memory.getLast? with
    | none =>
        have hm : t.memory = [] := List.getLast?_eq_none_iff.mp hl
        simp [hm]
    | some last =>
        have hm : t.memory ≠ [] := by
          intro h
          rw [h] at hl
          cases hl
        have hp := hinv last hl
        simp only [List.isEmpty_iff, hm, if_false, false_or, Option.some.injEq, Bool.false_eq_true]
        rw [observer_affinity_eq_one_iff, hp]
        exact eq_comm
  refine ⟨hinv, key, ?_⟩
  intro prompt observers cross previous_sigil d obs hc hobs
  obtain ⟨t', ps', h1, h2, _⟩ :=
    process_input_entry prompt observers t cross previous_sigil d obs hc hobs
  exact ⟨t', ps', _, h1, h2, key obs⟩

/-- The timeline after the first turn is reachable. -/
theorem after_first_turn_reachable : after_first_turn.Reachable := by
  obtain ⟨t', ps', h, _⟩ :=
    process_input_entry "hello" main_observers (Timeline.new none) 0 "" (scenario_draws 1)
      fluid_mystic (by decide) rfl
  have ht : after_first_turn = t' := by
    unfold after_first_turn
    rw [h]
    rfl
  rw [ht]
  exact .step _ _ _ _ _ _ (.new none) h

/-- C19 at the timeline after a first turn taken by the Fluid Mystic: the previous
observer is the Fluid Mystic, and for the Recursive Oracle acting next neither is the
affinity 1.0 nor the narrative the default one. -/
theorem affinity_one_iff_no_interference_witness :
    after_first_turn.Reachable ∧
    after_first_turn.previous_observer_name = "Fluid Mystic" ∧
    (turn_affinity after_first_turn.memory recursive_oracle
        after_first_turn.previous_observer_name = 1 ↔
      interference_narrative after_first_turn.memory recursive_oracle
        = "No interference detected.") :=
  ⟨after_first_turn_reachable,
   (affinity_one_iff_no_interference after_first_turn after_first_turn_reachable).1
     "Fluid Mystic" rfl,
   (affinity_one_iff_no_interference after_first_turn after_first_turn_reachable).2.1
     recursive_oracle⟩

/-! ### The histogram -/

/-- Discarding the fraction gives the floor of a non-negative value and the ceiling
of a negative one. -/
theorem tdiv_num_den (x : ℚ) :
    Int.tdiv x.num x.den = if 0 ≤ x then ⌊x⌋ else ⌈x⌉ := by
  split
  · rename_i h
    rw [Rat.floor_def]
    exact Int.tdiv_eq_ediv (Rat.num_nonneg.mpr h) (by positivity)
  · rename_i h
    have hneg : 0 ≤ -x := by linarith
    have h1 : (-x).num.tdiv (-x).den = ⌊-x⌋ := by
      rw [Rat.floor_def]
      exact Int.tdiv_eq_ediv (Rat.num_nonneg.mpr hneg) (by positivity)
    rw [Rat.neg_num, Rat.neg_den, Int.neg_tdiv, Int.floor_neg] at h1
    exact neg_injective h1

/-- A converted value is the truncation toward zero and lies in the range of `int`. -/
theorem static_cast_int_trunc (x : ℚ) (k : Int) (h : static_cast_int x = some k) :
    k = (if 0 ≤ x then ⌊x⌋ else ⌈x⌉) ∧ -2147483648 ≤ k ∧ k ≤ 2147483647 := by
  unfold static_cast_int at h
  simp only at h
  split at h
  · rename_i hr
    cases h
    exact ⟨tdiv_num_den x, hr⟩
  · cases h

/-- The conversion is defined for every value strictly between `-2^31 - 1` and
`2^31`. -/
theorem static_cast_int_some (x : ℚ) (hlo : -2147483649 < x) (hhi : x < 2147483648) :
    static_cast_int x = some (if 0 ≤ x then ⌊x⌋ else ⌈x⌉) := by
  unfold static_cast_int
  simp only
  rw [tdiv_num_den]
  have hr : -2147483648 ≤ (if 0 ≤ x then ⌊x⌋ else ⌈x⌉) ∧
      (if 0 ≤ x then ⌊x⌋ else ⌈x⌉) ≤ 2147483647 := by
    split
    · rename_i h
      have h0 : 0 ≤ ⌊x⌋ := Int.floor_nonneg.mpr h
      have h1 : ⌊x⌋ < 2147483648 := Int.floor_lt.mpr (by exact_mod_cast hhi)
      omega
    · rename_i h
      have h0 : ⌈x⌉ ≤ 0 := Int.ceil_le.mpr (by exact_mod_cast (le_of_lt (not_le.mp h)))
      have h1 : -2147483649 < ⌈x⌉ := Int.lt_ceil.mpr (by exact_mod_cast hlo)
      omega
  rw [if_pos hr]

/-- An empty histogram counts nothing. -/
theorem histogram_count_nil (k : Int) : histogram_count [] k = 0 := rfl

/-- The count of a key in a histogram with one more pair in front. -/
theorem histogram_count_cons (k0 c : Int) (rest : List (Int × Int)) (k : Int) :
    histogram_count ((k0, c) :: rest) k = if k = k0 then c else histogram_count rest k := by
  unfold histogram_count
  rw [List.lookup_cons]
  by_cases h : k = k0
  · simp [h]
  · have : (k == k0) = false := by simpa using h
    simp [h, this]

/-- A key below every key of the histogram has count 0. -/
theorem histogram_count_of_lt (h : List (Int × Int)) (k : Int)
    (hk : ∀ key ∈ h.map Prod.fst, k < key) : histogram_count h k = 0 := by
  induction h with
  | nil => rfl
  | cons p rest ih =>
      obtain ⟨k0, c⟩ := p
      rw [histogram_count_cons]
      have h0 : k < k0 := hk k0 (by simp)
      rw [if_neg (ne_of_lt h0)]
      exact ih (fun key hkey => hk key (by simp at hkey ⊢; exact Or.inr hkey))

/-- One increment keeps the keys ascending, adds at most the key `bin`, raises the
count of `bin` by one (wrapped) and leaves every other count. -/
theorem histogram_increment_spec (h : List (Int × Int)) (bin : Int)
    (hs : (h.map Prod.fst).Pairwise (· < ·)) :
    ((histogram_increment h bin).map Prod.fst).Pairwise (· < ·) ∧
    (∀ key ∈ (histogram_increment h bin).map Prod.fst, key = bin ∨ key ∈ h.map Prod.fst) ∧
    (∀ k, histogram_count (histogram_increment h bin) k =
      if k = bin then wrapInt32 (histogram_count h bin + 1) else histogram_count h k) := by
  induction h with
  | nil =>
      refine ⟨by simp [histogram_increment], by simp [histogram_increment], ?_⟩
      intro k
      simp only [histogram_increment, histogram_count_cons, histogram_count_nil]
  | cons p rest ih =>
      obtain ⟨k0, c⟩ := p
      simp only [List.map_cons, List.pairwise_cons] at hs
      obtain ⟨hhead, htail⟩ := hs
      obtain ⟨ih1, ih2, ih3⟩ := ih htail
      unfold histogram_increment
      by_cases h1 : bin < k0
      · simp only [h1, if_true]
        refine ⟨?_, ?_, ?_⟩
        · simp only [List.map_cons, List.pairwise_cons]
          refine ⟨?_, hhead, htail⟩
          intro key hkey
          simp only [List.mem_cons] at hkey
          rcases hkey with rfl | hkey
          · exact h1
          · exact lt_trans h1 (hhead key hkey)
        · intro key hkey
          simp only [List.map_cons, List.mem_cons] at hkey ⊢
          tauto
        · intro k
          have hz : histogram_count ((k0, c) :: rest) bin = 0 := by
            apply histogram_count_of_lt
            intro key hkey
            simp only [List.map_cons, List.mem_cons] at hkey
            rcases hkey with rfl | hkey
            · exact h1
            · exact lt_trans h1 (hhead key hkey)
          rw [histogram_count_cons, hz]
      · simp only [h1, if_false]
        by_cases h2 : bin = k0
        · subst h2
          simp only [if_true]
          refine ⟨?_, ?_, ?_⟩
          · simp only [List.map_cons, List.pairwise_cons]
            exact ⟨hhead, htail⟩
          · intro key hkey
            simp only [List.map_cons, List.mem_cons] at hkey ⊢
            tauto
          · intro k
            rw [histogram_count_cons, histogram_count_cons, histogram_count_cons]
            by_cases hk : k = bin
            · simp only [hk, if_true]
            · simp only [hk, if_false]
        · simp only [h2, if_false]
          have h3 : k0 < bin := lt_of_le_of_ne (not_lt.mp h1) (Ne.symm h2)
          refine ⟨?_, ?_, ?_⟩
          · simp only [List.map_cons, List.pairwise_cons]
            refine ⟨?_, ih1⟩
            intro key hkey
            rcases ih2 key hkey with rfl | hk
            · exact h3
            · exact hhead key hk
          · intro key hkey
            simp only [List.map_cons, List.mem_cons] at hkey ⊢
            rcases hkey with rfl | hkey
            · exact Or.inr (Or.inl rfl)
            · rcases ih2 key hkey with rfl | hk
              · exact Or.inl rfl
              · exact Or.inr (Or.inr hk)
          · intro k
            rw [histogram_count_cons, histogram_count_cons, histogram_count_cons, ih3,
              if_neg h2]
            by_cases hk0 : k = k0
            · have : ¬ k0 = bin := Ne.symm h2
              simp only [hk0, if_true, this, if_false]
            · simp only [hk0, if_false]

/-- While every conversion is defined, the histogram built from the samples has
ascending keys and stores under each key the wrapped number of samples converted to
that key. -/
theorem buildHistogram_spec (fmul : ℚ → ℚ → ℚ) (sizes : List ℚ)
    (hr : ∀ x ∈ sizes, ∃ k, static_cast_int (fmul x 100) = some k) :
    ∃ h, (⟨sizes⟩ : PowerLawAnalyzer).buildHistogram fmul = some h ∧
      (h.map Prod.fst).Pairwise (· < ·) ∧
      ∀ k, histogram_count h k =
        wrapInt32 (sizes.countP fun size => static_cast_int (fmul size 100) = some k) := by
  induction sizes using List.reverseRecOn with
  | nil =>
      refine ⟨[], rfl, by simp, ?_⟩
      intro k
      simp [histogram_count, wrapInt32]
  | append_singleton sizes x ih =>
      obtain ⟨h, ih0, ih1, ih2⟩ := ih (fun y hy => hr y (List.mem_append_left _ hy))
      obtain ⟨bin, hbin⟩ := hr x (List.mem_append_right _ (List.mem_singleton_self x))
      have hstep : (⟨sizes ++ [x]⟩ : PowerLawAnalyzer).buildHistogram fmul =
          some (histogram_increment h bin) := by
        have h0 : (⟨sizes ++ [x]⟩ : PowerLawAnalyzer).buildHistogram fmul =
            match (⟨sizes⟩ : PowerLawAnalyzer).buildHistogram fmul,
              static_cast_int (fmul x 100) with
            | some h, some bin => some (histogram_increment h bin)
            | _, _ => none := by
          simp only [PowerLawAnalyzer.buildHistogram, List.foldl_append, List.foldl_cons,
            List.foldl_nil]
        rw [h0, ih0, hbin]
      obtain ⟨s1, _, s3⟩ := histogram_increment_spec h bin ih1
      refine ⟨_, hstep, s1, ?_⟩
      intro k
      rw [s3, List.countP_append]
      by_cases hk : k = bin
      · rw [if_pos hk, ih2, wrapInt32_succ]
        subst hk
        simp [List.countP_cons, hbin]
      · rw [if_neg hk, ih2]
        have : ¬ bin = k := fun e => hk e.symm
        simp [List.countP_cons, hbin, this]

/-- C16 as stated fails: the sample -0.00390625 (its product with 100, -0.390625,
is exact in binary64) is counted under key 0, the value of
`static_cast<int>(-0.390625)`, while `floor(-0.00390625 * 100)` is -1, a key the
histogram does not hold. -/
theorem buildHistogram_not_floor :
    (⟨[-1 / 256]⟩ : PowerLawAnalyzer).buildHistogram exact_product = some [(0, 1)] ∧
    ⌊(-1 / 256 : ℚ) * 100⌋ = -1 ∧
    histogram_count [(0, 1)] (-1) = 0 := by
  have hb : static_cast_int (exact_product (-1 / 256) 100) = some 0 := by
    rw [static_cast_int_some _ (by norm_num [exact_product]) (by norm_num [exact_product])]
    norm_num [exact_product]
  have hh : (⟨[-1 / 256]⟩ : PowerLawAnalyzer).buildHistogram exact_product = some [(0, 1)] := by
    simp only [PowerLawAnalyzer.buildHistogram, List.foldl, hb]
    decide
  exact ⟨hh, by norm_num, by decide⟩

/-- C16, amended. `buildHistogram` assigns every logged value, whatever its sign, to
the key `static_cast<int>(value * 100)`: the binary64 product rounded toward zero,
which is its floor when the product is not negative and its ceiling when it is
negative.  With every product strictly between `-2^31 - 1` and `2^31` (where the
conversion is defined) and fewer than 2^31 samples, the histogram maps each key `k`
to the number of samples with that key, and its keys ascend. -/
theorem buildHistogram_counts (fmul : ℚ → ℚ → ℚ) (a : PowerLawAnalyzer)
    (hlen : a.event_sizes.length < 2147483648)
    (hrange : ∀ size ∈ a.event_sizes,
      -2147483649 < fmul size 100 ∧ fmul size 100 < 2147483648) :
    ∃ h, a.buildHistogram fmul = some h ∧
      (∀ k : Int, histogram_count h k =
        (a.event_sizes.countP fun size => static_cast_int (fmul size 100) = some k)) ∧
      (∀ size ∈ a.event_sizes, static_cast_int (fmul size 100) =
        some (if 0 ≤ fmul size 100 then ⌊fmul size 100⌋ else ⌈fmul size 100⌉)) ∧
      (h.map Prod.fst).Pairwise (· < ·) := by
  have hconv : ∀ size ∈ a.event_sizes, static_cast_int (fmul size 100) =
      some (if 0 ≤ fmul size 100 then ⌊fmul size 100⌋ else ⌈fmul size 100⌉) :=
    fun size hs => static_cast_int_some _ (hrange size hs).1 (hrange size hs).2
  obtain ⟨h, h0, h1, h2⟩ := buildHistogram_spec fmul a.event_sizes
    (fun x hx => ⟨_, hconv x hx⟩)
  refine ⟨h, h0, ?_, hconv, h1⟩
  intro k
  have hle : (a.event_sizes.countP fun size => static_cast_int (fmul size 100) = some k) <
      2147483648 := lt_of_le_of_lt (List.countP_le_length _) hlen
  exact (h2 k).trans (wrapInt32_of_lt _ hle)

/-- C16 amended, at the samples 0.25, 1.5 and 0.2578125, whose products with 100
are exact in binary64: the keys are 25, 150 and 25. -/
theorem buildHistogram_counts_witness :
    ∃ h, (⟨[1 / 4, 3 / 2, 33 / 128]⟩ : PowerLawAnalyzer).buildHistogram exact_product = some h ∧
      (∀ k : Int, histogram_count h k =
        (([1 / 4, 3 / 2, 33 / 128] : List ℚ).countP
          fun size => static_cast_int (exact_product size 100) = some k)) ∧
      static_cast_int (exact_product (33 / 128) 100) = some 25 := by
  obtain ⟨h, h0, h1, h2, _⟩ := buildHistogram_counts exact_product ⟨[1 / 4, 3 / 2, 33 / 128]⟩
    (by decide)
    (by
      intro size hs
      simp only [List.mem_cons, List.mem_singleton, List.not_mem_nil, or_false] at hs
      rcases hs with rfl | rfl | rfl <;> norm_num [exact_product])
  refine ⟨h, h0, h1, ?_⟩
  rw [h2 (33 / 128) (by simp)]
  norm_num [exact_product]

/-! ### The power-law fit -/

/-- The minimum found is below the start value and below every element scanned. -/
theorem min_element_le (xs : List ℚ) :
    ∀ smallest, min_element smallest xs ≤ smallest ∧ ∀ x ∈ xs, min_element smallest xs ≤ x := by
  induction xs with
  | nil =>
      intro smallest
      exact ⟨le_refl _, fun x hx => absurd hx (List.not_mem_nil x)⟩
  | cons y rest ih =>
      intro smallest
      unfold min_element
      obtain ⟨h1, h2⟩ := ih (if y < smallest then y else smallest)
      constructor
      · refine le_trans h1 ?_
        split
        · rename_i h; exact le_of_lt h
        · exact le_refl _
      · intro x hx
        rcases List.mem_cons.mp hx with rfl | hx
        · refine le_trans h1 ?_
          split
          · exact le_refl _
          · rename_i h; exact not_lt.mp h
        · exact h2 x hx

/-- The minimum found is the start value or one of the elements scanned. -/
theorem min_element_mem (xs : List ℚ) :
    ∀ smallest, min_element smallest xs = smallest ∨ min_element smallest xs ∈ xs := by
  induction xs with
  | nil =>
      intro smallest
      exact Or.inl rfl
  | cons y rest ih =>
      intro smallest
      unfold min_element
      rcases ih (if y < smallest then y else smallest) with h | h
      · rw [h]
        split
        · exact Or.inr (List.mem_cons_self _ _)
        · exact Or.inl rfl
      · exact Or.inr (List.mem_cons_of_mem _ h)

/-- The overflow threshold is above 1. -/
theorem one_lt_double_overflow : (1 : ℚ) < double_overflow := by
  unfold double_overflow
  norm_num

/-- Equal samples leave the sum where it was: each positive one adds `log 1`, the
others nothing. -/
theorem foldl_add_log_all_equal (min_size v : ℚ) (sizes : List ℚ) (h : ∀ x ∈ sizes, x = v)
    (hm : 0 < v → min_size = v) :
    ∀ sum : ℝ, sizes.foldl (add_log min_size) (LogSum.finite sum) = LogSum.finite sum := by
  induction sizes with
  | nil =>
      intro sum
      rfl
  | cons x rest ih =>
      intro sum
      have hx : x = v := h x (List.mem_cons_self _ _)
      have hstep : add_log min_size (LogSum.finite sum) x = LogSum.finite sum := by
        unfold add_log
        by_cases hv : 0 < v
        · have hq : x / min_size = 1 := by
            rw [hx, hm hv]
            exact div_self (ne_of_gt hv)
          rw [if_pos (by rw [hx]; exact hv)]
          simp only [hq, if_neg (not_le.mpr one_lt_double_overflow)]
          simp
        · rw [if_neg (by rw [hx]; exact hv)]
      rw [List.foldl_cons, hstep]
      exact ih (fun y hy => h y (List.mem_cons_of_mem _ hy)) sum

/-- Equal samples sum to zero. -/
theorem sum_log_all_equal (min_size v : ℚ) (sizes : List ℚ) (h : ∀ x ∈ sizes, x = v)
    (hm : 0 < v → min_size = v) : sum_log min_size sizes = LogSum.finite 0 :=
  foldl_add_log_all_equal min_size v sizes h hm 0

/-- Samples at or above a positive divisor, with no quotient overflowing, add a
real number that is not negative, and a positive one when a sample lies strictly
above the divisor. -/
theorem foldl_add_log_finite (min_size : ℚ) (hm : 0 < min_size) (sizes : List ℚ)
    (hge : ∀ x ∈ sizes, min_size ≤ x) (hno : ∀ x ∈ sizes, x / min_size < double_overflow) :
    ∀ sum : ℝ, ∃ r : ℝ, 0 ≤ r ∧
      sizes.foldl (add_log min_size) (LogSum.finite sum) = LogSum.finite (sum + r) ∧
      ((∃ z ∈ sizes, min_size < z) → 0 < r) := by
  induction sizes with
  | nil =>
      intro sum
      refine ⟨0, le_refl _, by simp, ?_⟩
      rintro ⟨z, hz, _⟩
      exact absurd hz (List.not_mem_nil z)
  | cons x rest ih =>
      intro sum
      have hx : min_size ≤ x := hge x (List.mem_cons_self _ _)
      have hx0 : 0 < x := lt_of_lt_of_le hm hx
      have hxno : ¬ double_overflow ≤ x / min_size := not_le.mpr (hno x (List.mem_cons_self _ _))
      have hstep : add_log min_size (LogSum.finite sum) x =
          LogSum.finite (sum + Real.log ((x / min_size : ℚ) : ℝ)) := by
        unfold add_log
        rw [if_pos hx0]
        simp only [hxno, if_false]
      have h1 : (1 : ℝ) ≤ ((x / min_size : ℚ) : ℝ) := by
        have : (1 : ℚ) ≤ x / min_size := (one_le_div hm).mpr hx
        exact_mod_cast this
      have hlog : 0 ≤ Real.log ((x / min_size : ℚ) : ℝ) := Real.log_nonneg h1
      obtain ⟨r, hr0, hr1, hr2⟩ := ih (fun y hy => hge y (List.mem_cons_of_mem _ hy))
        (fun y hy => hno y (List.mem_cons_of_mem _ hy))
        (sum + Real.log ((x / min_size : ℚ) : ℝ))
      refine ⟨Real.log ((x / min_size : ℚ) : ℝ) + r, by linarith, ?_, ?_⟩
      · rw [List.foldl_cons, hstep, hr1, add_assoc]
      · rintro ⟨z, hz, hzlt⟩
        rcases List.mem_cons.mp hz with rfl | hzr
        · have h2 : (1 : ℝ) < ((z / min_size : ℚ) : ℝ) := by
            have : (1 : ℚ) < z / min_size := (one_lt_div hm).mpr hzlt
            exact_mod_cast this
          have := Real.log_pos h2
          linarith
        · have := hr2 ⟨z, hzr, hzlt⟩
          linarith

/-- Once at `+inf` the sum stays there. -/
theorem foldl_add_log_infinity (min_size : ℚ) (sizes : List ℚ) :
    sizes.foldl (add_log min_size) LogSum.infinity = LogSum.infinity := by
  induction sizes with
  | nil => rfl
  | cons x rest ih =>
      have hstep : add_log min_size LogSum.infinity x = LogSum.infinity := by
        unfold add_log
        split <;> rfl
      rw [List.foldl_cons, hstep, ih]

/-- A positive sample whose quotient overflows takes the sum to `+inf`, whatever it
was. -/
theorem foldl_add_log_overflow (min_size : ℚ) (sizes : List ℚ) (z : ℚ) (hz : z ∈ sizes)
    (hz0 : 0 < z) (hzo : double_overflow ≤ z / min_size) :
    ∀ acc : LogSum, sizes.foldl (add_log min_size) acc = LogSum.infinity := by
  induction sizes with
  | nil => exact absurd hz (List.not_mem_nil z)
  | cons x rest ih =>
      intro acc
      rw [List.foldl_cons]
      rcases List.mem_cons.mp hz with rfl | hzr
      · have hstep : add_log min_size acc z = LogSum.infinity := by
          unfold add_log
          rw [if_pos hz0]
          cases acc with
          | finite sum => simp only [hzo, if_true]
          | infinity => rfl
        rw [hstep, foldl_add_log_infinity]
      · exact ih hzr _

/-- Equal samples, two or more, make `fitPowerLaw` divide by a zero sum. -/
theorem fitPowerLaw_all_equal (a : PowerLawAnalyzer) (v : ℚ) (h2 : 2 ≤ a.event_sizes.length)
    (hlen : a.event_sizes.length < 2147483648) (hall : ∀ x ∈ a.event_sizes, x = v) :
    a.fitPowerLaw = Exponent.infinity := by
  unfold PowerLawAnalyzer.fitPowerLaw
  have hn : wrapInt32 a.event_sizes.length = a.event_sizes.length := wrapInt32_of_lt _ hlen
  have hn2 : ¬ wrapInt32 a.event_sizes.length < 2 := by
    rw [hn]
    omega
  simp only [hn2, if_false]
  cases hs : a.event_sizes with
  | nil =>
      rw [hs] at h2
      simp at h2
  | cons first rest =>
      rw [hs] at hall
      have hmin : min_element first rest = v := by
        rcases min_element_mem rest first with h | h
        · rw [h]
          exact hall first (List.mem_cons_self _ _)
        · exact hall _ (List.mem_cons_of_mem _ h)
      have hz : sum_log (if min_element first rest ≤ 0 then 1 / 100 else min_element first rest)
          (first :: rest) = LogSum.finite 0 := by
        apply sum_log_all_equal _ v _ hall
        intro hv
        rw [hmin, if_neg (not_le.mpr hv)]
      simp only [hz, if_true]

/-- Positive samples, two or more, one of which overflows when divided by the
minimum, make `fitPowerLaw` set the exponent to exactly 1. -/
theorem fitPowerLaw_overflow (a : PowerLawAnalyzer) (h2 : 2 ≤ a.event_sizes.length)
    (hlen : a.event_sizes.length < 2147483648) (hpos : ∀ x ∈ a.event_sizes, 0 < x)
    (hover : ∃ x ∈ a.event_sizes, ∃ y ∈ a.event_sizes, double_overflow ≤ x / y) :
    a.fitPowerLaw = Exponent.finite 1 := by
  unfold PowerLawAnalyzer.fitPowerLaw
  have hn : wrapInt32 a.event_sizes.length = a.event_sizes.length := wrapInt32_of_lt _ hlen
  have hn2 : ¬ wrapInt32 a.event_sizes.length < 2 := by
    rw [hn]
    omega
  simp only [hn2, if_false]
  cases hs : a.event_sizes with
  | nil =>
      rw [hs] at h2
      simp at h2
  | cons first rest =>
      rw [hs] at hpos hover
      obtain ⟨hle1, hle2⟩ := min_element_le rest first
      have hmem : min_element first rest ∈ first :: rest := by
        rcases min_element_mem rest first with h | h
        · rw [h]
          exact List.mem_cons_self _ _
        · exact List.mem_cons_of_mem _ h
      have hmpos : 0 < min_element first rest := hpos _ hmem
      obtain ⟨x, hx, y, hy, hxy⟩ := hover
      have hy0 : 0 < y := hpos y hy
      have hx0 : 0 < x := hpos x hx
      have hmy : min_element first rest ≤ y := by
        rcases List.mem_cons.mp hy with rfl | hy'
        · exact hle1
        · exact hle2 y hy'
      have hq : double_overflow ≤ x / min_element first rest :=
        le_trans hxy (div_le_div_of_nonneg_left (le_of_lt hx0) hmpos hmy)
      have hz : sum_log (if min_element first rest ≤ 0 then 1 / 100 else min_element first rest)
          (first :: rest) = LogSum.infinity := by
        rw [if_neg (not_le.mpr hmpos)]
        exact foldl_add_log_overflow _ _ x hx hx0 hq _
      simp only [hz]

/-- C11 as stated fails: on the two equal samples 1, 1 `fitPowerLaw` raises nothing;
the sum of the logarithms is 0 and the exponent it sets is `1 + 2/0`, infinite. -/
theorem fitPowerLaw_no_domain_error :
    sum_log 1 [1, 1] = LogSum.finite 0 ∧
    (⟨[1, 1]⟩ : PowerLawAnalyzer).fitPowerLaw = Exponent.infinity :=
  ⟨sum_log_all_equal 1 1 [1, 1] (by simp) (fun _ => rfl),
   fitPowerLaw_all_equal ⟨[1, 1]⟩ 1 (by decide) (by decide) (by simp)⟩

/-- C11, amended. On a sample sequence of length `n ≥ 2` (below 2^31) whose values
are all equal, `fitPowerLaw` raises no error: the sum `S` is 0 and the exponent is
set to `1 + n/0`, positive infinity. -/
theorem fitPowerLaw_equal_samples (a : PowerLawAnalyzer) (v : ℚ)
    (h2 : 2 ≤ a.event_sizes.length) (hlen : a.event_sizes.length < 2147483648)
    (hall : ∀ x ∈ a.event_sizes, x = v) :
    a.fitPowerLaw = Exponent.infinity ∧
    (0 < v → sum_log v a.event_sizes = LogSum.finite 0) :=
  ⟨fitPowerLaw_all_equal a v h2 hlen hall,
   fun _ => sum_log_all_equal v v a.event_sizes hall (fun _ => rfl)⟩

/-- C11 amended, at three samples equal to 0.3. -/
theorem fitPowerLaw_equal_samples_witness :
    (⟨[3 / 10, 3 / 10, 3 / 10]⟩ : PowerLawAnalyzer).fitPowerLaw = Exponent.infinity :=
  (fitPowerLaw_equal_samples ⟨[3 / 10, 3 / 10, 3 / 10]⟩ (3 / 10) (by decide) (by decide)
    (by simp)).1

/-- C20 as stated fails: the samples `2^-600` and `2^600` are strictly positive and
not equal, their quotient `2^1200` overflows to `+inf` in binary64, the sum of the
logarithms is `+inf`, and the exponent `fitPowerLaw` sets is `1 + 2/inf`, exactly 1,
not greater than 1. -/
theorem fitPowerLaw_exponent_one :
    (0 : ℚ) < 1 / 2 ^ 600 ∧ (1 / 2 ^ 600 : ℚ) ≠ 2 ^ 600 ∧
    sum_log (1 / 2 ^ 600) [1 / 2 ^ 600, 2 ^ 600] = LogSum.infinity ∧
    (⟨[1 / 2 ^ 600, 2 ^ 600]⟩ : PowerLawAnalyzer).fitPowerLaw = Exponent.finite 1 ∧
    ¬ ((1 : ℝ) < 1) := by
  have hq : double_overflow ≤ (2 ^ 600 : ℚ) / (1 / 2 ^ 600) := by
    unfold double_overflow
    norm_num
  refine ⟨by positivity, by norm_num, ?_, ?_, lt_irrefl _⟩
  · exact foldl_add_log_overflow _ _ (2 ^ 600) (by simp) (by positivity) hq _
  · apply fitPowerLaw_overflow _ (by decide) (by decide)
    · intro x hx
      simp only [List.mem_cons, List.mem_singleton, List.not_mem_nil, or_false] at hx
      rcases hx with rfl | rfl <;> positivity
    · exact ⟨2 ^ 600, by simp, 1 / 2 ^ 600, by simp, hq⟩

/-- C20, amended. For a sample sequence of length `n ≥ 2` (below 2^31) whose values
are all strictly positive, not all equal, and such that no quotient of two samples
reaches the binary64 overflow threshold, the sum `S` of `log(x / min)` is a strictly
positive real number and `fitPowerLaw` sets the finite exponent `1 + n/S`, which is
strictly greater than 1. -/
theorem fitPowerLaw_exponent_gt_one (a : PowerLawAnalyzer) (h2 : 2 ≤ a.event_sizes.length)
    (hlen : a.event_sizes.length < 2147483648) (hpos : ∀ x ∈ a.event_sizes, 0 < x)
    (hne : ∃ x ∈ a.event_sizes, ∃ y ∈ a.event_sizes, x ≠ y)
    (hratio : ∀ x ∈ a.event_sizes, ∀ y ∈ a.event_sizes, x / y < double_overflow) :
    ∃ m ∈ a.event_sizes, (∀ x ∈ a.event_sizes, m ≤ x) ∧
      ∃ S : ℝ, sum_log m a.event_sizes = LogSum.finite S ∧ 0 < S ∧
        a.fitPowerLaw = Exponent.finite (1 + (a.event_sizes.length : ℝ) / S) ∧
        1 < 1 + (a.event_sizes.length : ℝ) / S := by
  unfold PowerLawAnalyzer.fitPowerLaw
  have hn : wrapInt32 a.event_sizes.length = a.event_sizes.length := wrapInt32_of_lt _ hlen
  have hn2 : ¬ wrapInt32 a.event_sizes.length < 2 := by
    rw [hn]
    omega
  simp only [hn2, if_false]
  cases hs : a.event_sizes with
  | nil =>
      rw [hs] at h2
      simp at h2
  | cons first rest =>
      rw [hs] at hpos hne hn hratio
      obtain ⟨hle1, hle2⟩ := min_element_le rest first
      have hmem : min_element first rest ∈ first :: rest := by
        rcases min_element_mem rest first with h | h
        · rw [h]
          exact List.mem_cons_self _ _
        · exact List.mem_cons_of_mem _ h
      have hmpos : 0 < min_element first rest := hpos _ hmem
      have hall : ∀ x ∈ first :: rest, min_element first rest ≤ x := by
        intro x hx
        rcases List.mem_cons.mp hx with rfl | hx
        · exact hle1
        · exact hle2 x hx
      obtain ⟨x, hx, y, hy, hxy⟩ := hne
      have hex : ∃ z ∈ first :: rest, min_element first rest < z := by
        by_contra hcon
        push_neg at hcon
        have ex : x = min_element first rest := le_antisymm (hcon x hx) (hall x hx)
        have ey : y = min_element first rest := le_antisymm (hcon y hy) (hall y hy)
        exact hxy (ex.trans ey.symm)
      obtain ⟨S, _, hS1, hS2⟩ := foldl_add_log_finite (min_element first rest) hmpos
        (first :: rest) hall (fun z hz => hratio z hz _ hmem) 0
      have hSpos : 0 < S := hS2 hex
      rw [zero_add] at hS1
      have hsum : sum_log (min_element first rest) (first :: rest) = LogSum.finite S := hS1
      simp only [if_neg (not_le.mpr hmpos), hsum, ne_of_gt hSpos, if_false]
      have hlen0 : (0 : ℝ) < ((first :: rest).length : ℝ) := by
        have : 0 < (first :: rest).length := by simp
        exact_mod_cast this
      refine ⟨min_element first rest, hmem, hall, S, hsum, hSpos, ?_, ?_⟩
      · rw [hn]
        push_cast
        rfl
      · have := div_pos hlen0 hSpos
        linarith

/-- C20 amended, at the samples 1 and 2. -/
theorem fitPowerLaw_exponent_gt_one_witness :
    ∃ m ∈ ([1, 2] : List ℚ), (∀ x ∈ ([1, 2] : List ℚ), m ≤ x) ∧
      ∃ S : ℝ, sum_log m [1, 2] = LogSum.finite S ∧ 0 < S ∧
        (⟨[1, 2]⟩ : PowerLawAnalyzer).fitPowerLaw =
          Exponent.finite (1 + (([1, 2] : List ℚ).length : ℝ) / S) ∧
        1 < 1 + (([1, 2] : List ℚ).length : ℝ) / S :=
  fitPowerLaw_exponent_gt_one ⟨[1, 2]⟩ (by decide) (by decide)
    (by
      intro x hx
      simp only [List.mem_cons, List.mem_singleton, List.not_mem_nil, or_false] at hx
      rcases hx with rfl | rfl <;> norm_num)
    ⟨1, by simp, 2, by simp, by norm_num⟩
    (by
      intro x hx y hy
      simp only [List.mem_cons, List.mem_singleton, List.not_mem_nil, or_false] at hx hy
      rcases hx with rfl | rfl <;> rcases hy with rfl | rfl <;>
        norm_num [double_overflow])

/-! ### Observer selection -/

/-- C12 as stated fails: with an empty observer list `process_input` raises no
error; the weights are empty, the index the distribution returns lies outside the
list, and the read `observers[dis(gen)]` is made all the same (the result `none`). -/
theorem empty_observers_no_error :
    selection_weights [] fresh_timeline.cumulative_entropy fresh_timeline.future_entropy 0 = [] ∧
    ([] : List Observer)[(scenario_draws 0).pick []]? = none ∧
    process_input "hello" [] fresh_timeline 0 "" (scenario_draws 0) = none := by
  refine ⟨rfl, rfl, ?_⟩
  unfold process_input
  rw [if_neg (by decide)]
  rfl

/-- C12, amended. Observer selection makes no emptiness check and raises no
ConfigurationError: there is one weight per observer, `process_input` reads
`observers[i]` at the index `i` the distribution returns, and when `i` is below the
number of weights (so the list is not empty) the observer at `i` takes the turn. -/
theorem observer_selection_unchecked (prompt : String) (observers : List Observer)
    (t : Timeline) (cross_timeline_entropy : ℚ) (previous_sigil : String) (d : Draws)
    (hc : is_command prompt = false)
    (hidx : d.pick (selection_weights observers t.cumulative_entropy t.future_entropy
        cross_timeline_entropy) <
      (selection_weights observers t.cumulative_entropy t.future_entropy
        cross_timeline_entropy).length) :
    (selection_weights observers t.cumulative_entropy t.future_entropy
        cross_timeline_entropy).length = observers.length ∧
    observers ≠ [] ∧
    ∃ (obs : Observer) (t' : Timeline) (ps' : String),
      observers[d.pick (selection_weights observers t.cumulative_entropy t.future_entropy
        cross_timeline_entropy)]? = some obs ∧
      process_input prompt observers t cross_timeline_entropy previous_sigil d = some (t', ps') ∧
      t'.memory = t.memory ++ [obs.name] ∧ t'.previous_observer_name = obs.name := by
  have hw : (selection_weights observers t.cumulative_entropy t.future_entropy
      cross_timeline_entropy).length = observers.length := by
    simp [selection_weights]
  rw [hw] at hidx
  refine ⟨hw, ?_, ?_⟩
  · intro h
    rw [h] at hidx
    exact Nat.not_lt_zero _ hidx
  · have hobs : observers[d.pick (selection_weights observers t.cumulative_entropy
        t.future_entropy cross_timeline_entropy)]? = some (observers.get ⟨_, hidx⟩) :=
      List.getElem?_eq_getElem hidx
    obtain ⟨t', ps', h1, _, h3, h4⟩ :=
      process_input_entry prompt observers t cross_timeline_entropy previous_sigil d _ hc hobs
    exact ⟨_, t', ps', hobs, h1, h3, h4⟩

/-- C12 amended, at the three observers of `main` with the distribution returning
index 2. -/
theorem observer_selection_unchecked_witness :
    ∃ (obs : Observer) (t' : Timeline) (ps' : String),
      main_observers[(scenario_draws 2).pick (selection_weights main_observers
        fresh_timeline.cumulative_entropy fresh_timeline.future_entropy 0)]? = some obs ∧
      process_input "hello" main_observers fresh_timeline 0 "" (scenario_draws 2)
        = some (t', ps') ∧
      t'.memory = fresh_timeline.memory ++ [obs.name] ∧ t'.previous_observer_name = obs.name :=
  (observer_selection_unchecked "hello" main_observers fresh_timeline 0 "" (scenario_draws 2)
    (by decide) (by decide)).2.2

/-! ### The `#paradox` tag -/

/-- The responses by persona: the prefix followed by one of the three phrases of the
persona, or the prefix alone for a name outside the three personas. -/
theorem dialogue_response_cases (input : String) (observer : Observer) (choice : Nat) :
    (observer.name = "Grounded Realist" →
      generate_dialogue_response input observer choice ∈
        ["Generated: observer signal signal", "Generated: calibration in progress",
          "Generated: semantic anchor detected"]) ∧
    (observer.name = "Fluid Mystic" →
      generate_dialogue_response input observer choice ∈
        ["Generated: entropy signal signal", "Generated: flow state activated",
          "Generated: resonance pulse emitted"]) ∧
    (observer.name = "Recursive Oracle" →
      generate_dialogue_response input observer choice ∈
        ["Generated: coherence observer coherence", "Generated: recursive loop initiated",
          "Generated: quantum eye scanning"]) ∧
    (observer.name ≠ "Grounded Realist" → observer.name ≠ "Fluid Mystic" →
      observer.name ≠ "Recursive Oracle" →
      generate_dialogue_response input observer choice = "Generated: ") := by
  have fg : ("Fluid Mystic" : String) ≠ "Grounded Realist" := by decide
  have rg : ("Recursive Oracle" : String) ≠ "Grounded Realist" := by decide
  have rf : ("Recursive Oracle" : String) ≠ "Fluid Mystic" := by decide
  have e1 : "Generated: " ++ "observer signal signal" = "Generated: observer signal signal" := by
    decide
  have e2 : "Generated: " ++ "calibration in progress" = "Generated: calibration in progress" := by
    decide
  have e3 : "Generated: " ++ "semantic anchor detected" = "Generated: semantic anchor detected" := by
    decide
  have e4 : "Generated: " ++ "entropy signal signal" = "Generated: entropy signal signal" := by
    decide
  have e5 : "Generated: " ++ "flow state activated" = "Generated: flow state activated" := by
    decide
  have e6 : "Generated: " ++ "resonance pulse emitted" = "Generated: resonance pulse emitted" := by
    decide
  have e7 : "Generated: " ++ "coherence observer coherence" =
      "Generated: coherence observer coherence" := by decide
  have e8 : "Generated: " ++ "recursive loop initiated" = "Generated: recursive loop initiated" := by
    decide
  have e9 : "Generated: " ++ "quantum eye scanning" = "Generated: quantum eye scanning" := by
    decide
  unfold generate_dialogue_response
  refine ⟨fun h => ?_, fun h => ?_, fun h => ?_, fun h1 h2 h3 => ?_⟩
  · simp only [h, if_true, e1, e2, e3]
    by_cases h0 : choice = 0
    · simp [h0]
    · by_cases h1 : choice = 1
      · simp [h1]
      · simp [h0, h1]
  · simp only [h, fg, if_true, if_false, e4, e5, e6]
    by_cases h0 : choice = 0
    · simp [h0]
    · by_cases h1 : choice = 1
      · simp [h1]
      · simp [h0, h1]
  · simp only [h, rg, rf, if_true, if_false, e7, e8, e9]
    by_cases h0 : choice = 0
    · simp [h0]
    · by_cases h1 : choice = 1
      · simp [h1]
      · simp [h0, h1]
  · simp only [h1, h2, h3, if_false]

/-- No response of `generate_dialogue_response` contains "paradox". -/
theorem dialogue_response_no_paradox (input : String) (observer : Observer) (choice : Nat) :
    found (generate_dialogue_response input observer choice) "paradox" = false := by
  obtain ⟨hg, hf, hr, ho⟩ := dialogue_response_cases input observer choice
  by_cases h1 : observer.name = "Grounded Realist"
  · have h := hg h1
    simp only [List.mem_cons, List.mem_singleton, List.not_mem_nil, or_false] at h
    rcases h with h | h | h <;> rw [h] <;> decide
  · by_cases h2 : observer.name = "Fluid Mystic"
    · have h := hf h2
      simp only [List.mem_cons, List.mem_singleton, List.not_mem_nil, or_false] at h
      rcases h with h | h | h <;> rw [h] <;> decide
    · by_cases h3 : observer.name = "Recursive Oracle"
      · have h := hr h3
        simp only [List.mem_cons, List.mem_singleton, List.not_mem_nil, or_false] at h
        rcases h with h | h | h <;> rw [h] <;> decide
      · rw [ho h1 h2 h3]
        decide

/-- Membership in a list after one guarded `push_back`. -/
theorem mem_guarded_push (c : Prop) [Decidable c] (tags : List String) (tag x : String) :
    x ∈ (if c then tags ++ [tag] else tags) ↔ x ∈ tags ∨ (c ∧ x = tag) := by
  by_cases h : c
  · simp [h]
  · simp [h]

/-- The tag `#paradox` is pushed only by the sixth rule of `generate_tags`. -/
theorem paradox_tag_needs_response (turn : DialogueTurn) (input_lower : String)
    (h : "#paradox" ∈ generate_tags turn input_lower) :
    turn.delta_O > 3 / 2 ∧ found turn.response "paradox" = true := by
  have n1 : ("#paradox" : String) ≠ "#entropy-spike" := by decide
  have n2 : ("#paradox" : String) ≠ "#high-decoherence" := by decide
  have n3 : ("#paradox" : String) ≠ "#celebration" := by decide
  have n4 : ("#paradox" : String) ≠ "#introspection" := by decide
  have n5 : ("#paradox" : String) ≠ "#symbol-request" := by decide
  have n7 : ("#paradox" : String) ≠ "#observer-interaction" := by decide
  unfold generate_tags at h
  simp only [mem_guarded_push, List.not_mem_nil, false_or, n1, n2, n3, n4, n5, n7, and_false,
    or_false, and_true] at h
  exact h

/-- C21. No turn built by `process_input` carries the tag `#paradox`: for every
observer and every random choice `generate_dialogue_response` returns "Generated: "
followed by one of the three phrases of the persona (nothing for a name outside the
three personas), no such response contains "paradox", and so neither the tags of
the turn built nor those of the journal entry written hold `#paradox`, whatever
`delta_O` and the input are. -/
theorem no_paradox_tag :
    (∀ (input : String) (observer : Observer) (choice : Nat),
      (observer.name = "Grounded Realist" →
        generate_dialogue_response input observer choice ∈
          ["Generated: observer signal signal", "Generated: calibration in progress",
            "Generated: semantic anchor detected"]) ∧
      (observer.name = "Fluid Mystic" →
        generate_dialogue_response input observer choice ∈
          ["Generated: entropy signal signal", "Generated: flow state activated",
            "Generated: resonance pulse emitted"]) ∧
      (observer.name = "Recursive Oracle" →
        generate_dialogue_response input observer choice ∈
          ["Generated: coherence observer coherence", "Generated: recursive loop initiated",
            "Generated: quantum eye scanning"]) ∧
      (observer.name ≠ "Grounded Realist" → observer.name ≠ "Fluid Mystic" →
        observer.name ≠ "Recursive Oracle" →
        generate_dialogue_response input observer choice = "Generated: ") ∧
      found (generate_dialogue_response input observer choice) "paradox" = false ∧
      ¬ Contains (generate_dialogue_response input observer choice) "paradox") ∧
    (∀ (prompt : String) (obs : Observer) (d : Draws),
      "#paradox" ∉ (build_turn prompt obs d).tags) ∧
    (∀ (prompt : String) (observers : List Observer) (t : Timeline)
        (cross_timeline_entropy : ℚ) (previous_sigil : String) (d : Draws) (obs : Observer),
      is_command prompt = false →
      observers[d.pick (selection_weights observers t.cumulative_entropy t.future_entropy
        cross_timeline_entropy)]? = some obs →
      ∃ (t' : Timeline) (ps' : String) (e : JournalEntry),
        process_input prompt observers t cross_timeline_entropy previous_sigil d
          = some (t', ps') ∧
        t'.journal.file = some ((t.journal.file.getD []) ++ [e]) ∧
        "#paradox" ∉ e.tags) := by
  have hturn : ∀ (prompt : String) (obs : Observer) (d : Draws),
      "#paradox" ∉ (build_turn prompt obs d).tags := by
    intro prompt obs d hmem
    have h := (paradox_tag_needs_response _ _ hmem).2
    have hr := dialogue_response_no_paradox prompt obs d.choice
    have h' : found (generate_dialogue_response prompt obs d.choice) "paradox" = true := h
    rw [hr] at h'
    exact Bool.false_ne_true h'
  refine ⟨?_, hturn, ?_⟩
  · intro input observer choice
    obtain ⟨hg, hf, hr, ho⟩ := dialogue_response_cases input observer choice
    have hn := dialogue_response_no_paradox input observer choice
    refine ⟨hg, hf, hr, ho, hn, ?_⟩
    intro hc
    rw [(found_iff_contains _ _).mpr hc] at hn
    exact Bool.noConfusion hn
  · intro prompt observers t cross previous_sigil d obs hc hobs
    obtain ⟨t', ps', h1, h2, _⟩ :=
      process_input_entry prompt observers t cross previous_sigil d obs hc hobs
    exact ⟨t', ps', _, h1, h2, hturn prompt obs d⟩

/-- C21 at a turn with `delta_O = 1.8` whose input names a paradox: the Recursive
Oracle answers "Generated: quantum eye scanning" and the tags hold no `#paradox`. -/
theorem no_paradox_tag_witness :
    (build_turn "A paradox, please" recursive_oracle high_divergence_draws).delta_O > 3 / 2 ∧
    generate_dialogue_response "A paradox, please" recursive_oracle high_divergence_draws.choice
      = "Generated: quantum eye scanning" ∧
    "#paradox" ∉ (build_turn "A paradox, please" recursive_oracle high_divergence_draws).tags ∧
    ∃ (t' : Timeline) (ps' : String) (e : JournalEntry),
      process_input "A paradox, please" main_observers fresh_timeline 0 ""
        high_divergence_draws = some (t', ps') ∧
      t'.journal.file = some ((fresh_timeline.journal.file.getD []) ++ [e]) ∧
      "#paradox" ∉ e.tags :=
  ⟨by norm_num [build_turn, high_divergence_draws], by decide,
   no_paradox_tag.2.1 "A paradox, please" recursive_oracle high_divergence_draws,
   no_paradox_tag.2.2 "A paradox, please" main_observers fresh_timeline 0 ""
     high_divergence_draws recursive_oracle (by decide) rfl⟩

end RLCI
